import Mathlib

/-!
Verification of core components of the ict-trading-bot-rs repository.

Shallow embedding conventions:
  - Rust f64 prices, sizes and fractions are modelled as rationals; the
    arithmetic used by the embedded code paths (+, -, *, /, min, max, abs,
    comparisons, rounding to a fixed number of decimals) is exact on the
    inputs quantified over, so the rational model tracks the source
    expression structure term by term.
  - chrono DateTime timestamps are modelled as integer Unix seconds.
  - Rust f64::round rounds half away from zero; rust_round below mirrors
    that exactly on rationals.
  - Rust strings are modelled as lists of characters; str::contains is the
    substring test has_sub below.
  - Vec iteration with index-local mutation is modelled by structural
    recursion / folds that touch exactly the fields the loop bodies touch.
-/

set_option maxHeartbeats 1000000

namespace ICT

/-- Rust f64::round: rounds half away from zero (Mathlib round rounds half
up, so the two differ on negative half points only). -/
def rust_round (x : ℚ) : ℤ :=
  if 0 ≤ x then round x else -round (-x)

/-- Round to a fixed scale s (s = 100 keeps two decimals), as Rust's
(x * s).round() / s idiom. -/
def rround (s : ℚ) (x : ℚ) : ℚ :=
  (rust_round (x * s) : ℚ) / s

/-- round1 from paper_trader.rs. -/
def round1 (x : ℚ) : ℚ := rround 10 x

/-- round2 from stop_loss.rs / paper_trader.rs / stddev_projections.rs. -/
def round2 (x : ℚ) : ℚ := rround 100 x

/-- round3 from stop_loss.rs. -/
def round3 (x : ℚ) : ℚ := rround 1000 x

/-- round4 from kelly.rs. -/
def round4 (x : ℚ) : ℚ := rround 10000 x

/-- round6 from kelly.rs. -/
def round6 (x : ℚ) : ℚ := rround 1000000 x

/-- round8 from paper_trader.rs. -/
def round8 (x : ℚ) : ℚ := rround 100000000 x

theorem rust_round_intCast (k : ℤ) : rust_round (k : ℚ) = k := by
  unfold rust_round
  by_cases h : (0 : ℚ) ≤ (k : ℚ)
  · simp [h]
  · simp only [h, if_false]
    rw [show (-(k : ℚ)) = ((-k : ℤ) : ℚ) by push_cast; ring, round_intCast]
    ring

theorem round_mono_q {x y : ℚ} (h : x ≤ y) : round x ≤ round y := by
  rw [round_eq, round_eq]
  exact Int.floor_le_floor (by linarith)

theorem rust_round_mono {x y : ℚ} (h : x ≤ y) : rust_round x ≤ rust_round y := by
  unfold rust_round
  by_cases hx : 0 ≤ x <;> by_cases hy : 0 ≤ y
  · simp only [hx, hy, if_true]
    exact round_mono_q h
  · exact absurd (le_trans hx h) hy
  · simp only [hx, hy, if_true, if_false]
    have h1 : round (-x) ≥ 0 := by
      have : round (0 : ℚ) ≤ round (-x) := round_mono_q (by linarith)
      simpa using this
    have h2 : (0 : ℤ) ≤ round y := by
      have : round (0 : ℚ) ≤ round y := round_mono_q hy
      simpa using this
    omega
  · simp only [hx, hy, if_false]
    have : round (-y) ≤ round (-x) := round_mono_q (by linarith)
    omega

theorem rust_round_le (x : ℚ) : (rust_round x : ℚ) ≤ x + 1 / 2 := by
  unfold rust_round
  by_cases hx : 0 ≤ x
  · simp only [hx, if_true]
    exact_mod_cast round_le_add_half x
  · simp only [hx, if_false]
    push_cast
    have := sub_half_lt_round (-x)
    linarith

theorem le_rust_round (x : ℚ) : x - 1 / 2 ≤ (rust_round x : ℚ) := by
  unfold rust_round
  by_cases hx : 0 ≤ x
  · simp only [hx, if_true]
    have := sub_half_lt_round x
    linarith
  · simp only [hx, if_false]
    push_cast
    have := round_le_add_half (-x)
    linarith

/-- x lies on the 1/s grid: x = k / s for an integer k. -/
def on_grid (s : ℚ) (x : ℚ) : Prop := ∃ k : ℤ, x = (k : ℚ) / s

theorem rround_on_grid (s x : ℚ) : on_grid s (rround s x) :=
  ⟨rust_round (x * s), rfl⟩

theorem rround_fixed {s x : ℚ} (hs : s ≠ 0) (h : on_grid s x) : rround s x = x := by
  obtain ⟨k, rfl⟩ := h
  unfold rround
  rw [div_mul_cancel₀ _ hs, rust_round_intCast]

theorem rround_mono {s : ℚ} (hs : 0 < s) {x y : ℚ} (h : x ≤ y) :
    rround s x ≤ rround s y := by
  unfold rround
  have : rust_round (x * s) ≤ rust_round (y * s) :=
    rust_round_mono (by exact mul_le_mul_of_nonneg_right h hs.le)
  exact div_le_div_of_nonneg_right (by exact_mod_cast this) hs.le

theorem rround_le (s : ℚ) (hs : 0 < s) (x : ℚ) : rround s x ≤ x + 1 / (2 * s) := by
  unfold rround
  rw [div_le_iff₀ hs]
  have := rust_round_le (x * s)
  have hexp : (x + 1 / (2 * s)) * s = x * s + 1 / 2 := by
    field_simp
    ring
  rw [hexp]
  exact this

theorem le_rround (s : ℚ) (hs : 0 < s) (x : ℚ) : x - 1 / (2 * s) ≤ rround s x := by
  unfold rround
  rw [le_div_iff₀ hs]
  have := le_rust_round (x * s)
  have hexp : (x - 1 / (2 * s)) * s = x * s - 1 / 2 := by
    field_simp
    ring
  rw [hexp]
  exact this

/-! ### Data model enums (src/models/direction.rs, src/models/timeframe.rs) -/

inductive Direction
  | Long
  | Short
  deriving DecidableEq, Repr

inductive Trend
  | Bullish
  | Bearish
  | Neutral
  deriving DecidableEq, Repr

inductive SwingType
  | High
  | Low
  deriving DecidableEq, Repr

inductive PdaType
  | OB
  | FVG
  | BRK
  | RB
  deriving DecidableEq, Repr

inductive Zone
  | Premium
  | Discount
  deriving DecidableEq, Repr

inductive StopMode
  | Wick
  | Body
  | Continuation
  deriving DecidableEq, Repr

inductive PositionStatus
  | Open
  | ClosedTp
  | ClosedSl
  | ClosedManual
  deriving DecidableEq, Repr

inductive Timeframe
  | M1
  | M5
  | M15
  | H1
  | H4
  | D1
  deriving DecidableEq, Repr

/-! ### Candle and CandleSeries (src/models/candle.rs)

The field open of the Rust struct is a Lean keyword, hence open_. -/

structure Candle where
  timestamp : ℤ
  open_ : ℚ
  high : ℚ
  low : ℚ
  close : ℚ
  volume : ℚ
  deriving DecidableEq, Repr

instance : Inhabited Candle := ⟨⟨0, 0, 0, 0, 0, 0⟩⟩

/-- A CandleSeries is its candle vector; helper methods follow. -/
def CandleSeries := List Candle

/-- Indexing candles[i] (all embedded code paths index in bounds). -/
def cat (cs : List Candle) (i : ℕ) : Candle := cs.getD i default

/-- CandleSeries::slice(start, end): clamps both ends to len. -/
def cslice (cs : List Candle) (s e : ℕ) : List Candle := (cs.take e).drop s

/-- CandleSeries::tail(n): last n candles. -/
def ctail (cs : List Candle) (n : ℕ) : List Candle := cs.drop (cs.length - n)

/-- CandleSeries::highs_max: fold of f64::max over the highs.  The source
seeds the fold with -inf; every call site guards non-emptiness, and on a
non-empty list the seed is absorbed, so the head-seeded fold below agrees
with the source on every reachable input. -/
def highs_max (cs : List Candle) : ℚ :=
  match cs with
  | [] => 0
  | c :: rest => rest.foldl (fun m x => max m x.high) c.high

/-- CandleSeries::lows_min, same convention as highs_max. -/
def lows_min (cs : List Candle) : ℚ :=
  match cs with
  | [] => 0
  | c :: rest => rest.foldl (fun m x => min m x.low) c.low

theorem foldl_max_le_iff (l : List Candle) (a m : ℚ) :
    l.foldl (fun m x => max m x.high) a ≤ m ↔ a ≤ m ∧ ∀ c ∈ l, c.high ≤ m := by
  induction l generalizing a with
  | nil => simp
  | cons c rest ih =>
      simp only [List.foldl_cons, ih, max_le_iff, List.mem_cons]
      constructor
      · rintro ⟨⟨h1, h2⟩, h3⟩
        exact ⟨h1, fun x hx => by rcases hx with rfl | hx; exact h2; exact h3 x hx⟩
      · rintro ⟨h1, h2⟩
        exact ⟨⟨h1, h2 c (Or.inl rfl)⟩, fun x hx => h2 x (Or.inr hx)⟩

theorem le_foldl_min_iff (l : List Candle) (a m : ℚ) :
    m ≤ l.foldl (fun m x => min m x.low) a ↔ m ≤ a ∧ ∀ c ∈ l, m ≤ c.low := by
  induction l generalizing a with
  | nil => simp
  | cons c rest ih =>
      simp only [List.foldl_cons, ih, le_min_iff, List.mem_cons]
      constructor
      · rintro ⟨⟨h1, h2⟩, h3⟩
        exact ⟨h1, fun x hx => by rcases hx with rfl | hx; exact h2; exact h3 x hx⟩
      · rintro ⟨h1, h2⟩
        exact ⟨⟨h1, h2 c (Or.inl rfl)⟩, fun x hx => h2 x (Or.inr hx)⟩

theorem highs_max_le_iff {cs : List Candle} (h : cs ≠ []) (m : ℚ) :
    highs_max cs ≤ m ↔ ∀ c ∈ cs, c.high ≤ m := by
  match cs with
  | [] => exact absurd rfl h
  | c :: rest =>
      simp only [highs_max, foldl_max_le_iff, List.mem_cons]
      constructor
      · rintro ⟨h1, h2⟩ x hx
        rcases hx with rfl | hx
        · exact h1
        · exact h2 x hx
      · intro hall
        exact ⟨hall c (Or.inl rfl), fun x hx => hall x (Or.inr hx)⟩

theorem le_lows_min_iff {cs : List Candle} (h : cs ≠ []) (m : ℚ) :
    m ≤ lows_min cs ↔ ∀ c ∈ cs, m ≤ c.low := by
  match cs with
  | [] => exact absurd rfl h
  | c :: rest =>
      simp only [lows_min, le_foldl_min_iff, List.mem_cons]
      constructor
      · rintro ⟨h1, h2⟩ x hx
        rcases hx with rfl | hx
        · exact h1
        · exact h2 x hx
      · intro hall
        exact ⟨hall c (Or.inl rfl), fun x hx => hall x (Or.inr hx)⟩

theorem le_highs_max {cs : List Candle} {c : Candle} (h : c ∈ cs) :
    c.high ≤ highs_max cs := by
  by_contra hc
  push_neg at hc
  have hne : cs ≠ [] := by rintro rfl; simp at h
  have := (highs_max_le_iff hne (highs_max cs)).mp le_rfl c h
  linarith

theorem lows_min_le {cs : List Candle} {c : Candle} (h : c ∈ cs) :
    lows_min cs ≤ c.low := by
  by_contra hc
  push_neg at hc
  have hne : cs ≠ [] := by rintro rfl; simp at h
  have := (le_lows_min_iff hne (lows_min cs)).mp le_rfl c h
  linarith

theorem cat_eq_getElem {cs : List Candle} {i : ℕ} (h : i < cs.length) :
    cat cs i = cs[i] := by
  unfold cat
  rw [List.getD_eq_getElem?_getD, List.getElem?_eq_getElem h]
  rfl

theorem cslice_length (cs : List Candle) (s e : ℕ) :
    (cslice cs s e).length = min e cs.length - s := by
  simp [cslice]

theorem cslice_getElem (cs : List Candle) (s e k : ℕ)
    (h : k < (cslice cs s e).length) : (cslice cs s e)[k] = cat cs (s + k) := by
  have hlen : (cslice cs s e).length = min e cs.length - s := cslice_length cs s e
  unfold cslice at h ⊢
  rw [List.getElem_drop, List.getElem_take]
  have hcs : s + k < cs.length := by
    simp only [List.length_drop, List.length_take] at h
    omega
  exact (cat_eq_getElem hcs).symm

/-- Members of cslice are exactly the in-range indexed candles. -/
theorem mem_cslice_iff (cs : List Candle) (s e : ℕ) (c : Candle) :
    c ∈ cslice cs s e ↔ ∃ j, s ≤ j ∧ j < e ∧ j < cs.length ∧ cat cs j = c := by
  constructor
  · intro hmem
    rw [List.mem_iff_getElem] at hmem
    obtain ⟨k, hk, hget⟩ := hmem
    rw [cslice_getElem cs s e k hk] at hget
    have hlen := cslice_length cs s e
    exact ⟨s + k, by omega, by omega, by omega, hget⟩
  · rintro ⟨j, hs, he, hlen, rfl⟩
    rw [List.mem_iff_getElem]
    have hlt : j - s < (cslice cs s e).length := by
      rw [cslice_length]
      omega
    refine ⟨j - s, hlt, ?_⟩
    rw [cslice_getElem cs s e _ hlt]
    congr 1
    omega

theorem cslice_ne_nil {cs : List Candle} {s e : ℕ} (hs : s < e) (hlen : s < cs.length) :
    cslice cs s e ≠ [] := by
  have : cat cs s ∈ cslice cs s e := by
    rw [mem_cslice_iff]
    exact ⟨s, le_rfl, hs, hlen, rfl⟩
  intro hnil
  rw [hnil] at this
  simp at this

/-! ### MarketStructure::find_swings (src/core/structure.rs)

The Rust loop pushes a SwingPoint (price and timestamp) per qualifying
index; the embedding returns the qualifying indices themselves (the
pushed price is cat cs i .high resp. .low, the timestamp cat cs i
.timestamp), which is the information the swing claims quantify over. -/

/-- Inner window scan for a swing high at index i: no j in the inclusive
window [i-L, min(i+L, len-1)] has a strictly greater high. -/
def swing_high_at (lb : ℕ) (cs : List Candle) (i : ℕ) : Bool :=
  (List.range' (i - lb) (min (i + lb) (cs.length - 1) + 1 - (i - lb))).all
    fun j => !decide ((cat cs i).high < (cat cs j).high)

/-- Inner window scan for a swing low at index i. -/
def swing_low_at (lb : ℕ) (cs : List Candle) (i : ℕ) : Bool :=
  (List.range' (i - lb) (min (i + lb) (cs.length - 1) + 1 - (i - lb))).all
    fun j => !decide ((cat cs j).low < (cat cs i).low)

/-- MarketStructure::find_swings, swing-high side: indices i in
[lb, len - lb) whose high is maximal in the window, with the early return
on len <= 2*lb. -/
def find_swing_highs (lb : ℕ) (cs : List Candle) : List ℕ :=
  if cs.length ≤ lb * 2 then []
  else (List.range' lb (cs.length - lb - lb)).filter (swing_high_at lb cs)

/-- MarketStructure::find_swings, swing-low side. -/
def find_swing_lows (lb : ℕ) (cs : List Candle) : List ℕ :=
  if cs.length ≤ lb * 2 then []
  else (List.range' lb (cs.length - lb - lb)).filter (swing_low_at lb cs)

theorem swing_high_at_iff {lb : ℕ} {cs : List Candle} {i : ℕ}
    (hl : lb ≤ i) (hr : i + lb < cs.length) :
    swing_high_at lb cs i = true ↔
      ∀ j, i - lb ≤ j → j ≤ i + lb → (cat cs j).high ≤ (cat cs i).high := by
  unfold swing_high_at
  rw [List.all_eq_true]
  have hmin : min (i + lb) (cs.length - 1) = i + lb := by omega
  constructor
  · intro h j hj1 hj2
    have hj : j ∈ List.range' (i - lb) (min (i + lb) (cs.length - 1) + 1 - (i - lb)) := by
      rw [List.mem_range'_1]
      omega
    have := h j hj
    simp only [Bool.not_eq_true', decide_eq_false_iff_not, not_lt] at this
    exact this
  · intro h j hj
    rw [List.mem_range'_1] at hj
    simp only [Bool.not_eq_true', decide_eq_false_iff_not, not_lt]
    exact h j hj.1 (by omega)

theorem swing_low_at_iff {lb : ℕ} {cs : List Candle} {i : ℕ}
    (hl : lb ≤ i) (hr : i + lb < cs.length) :
    swing_low_at lb cs i = true ↔
      ∀ j, i - lb ≤ j → j ≤ i + lb → (cat cs i).low ≤ (cat cs j).low := by
  unfold swing_low_at
  rw [List.all_eq_true]
  have hmin : min (i + lb) (cs.length - 1) = i + lb := by omega
  constructor
  · intro h j hj1 hj2
    have hj : j ∈ List.range' (i - lb) (min (i + lb) (cs.length - 1) + 1 - (i - lb)) := by
      rw [List.mem_range'_1]
      omega
    have := h j hj
    simp only [Bool.not_eq_true', decide_eq_false_iff_not, not_lt] at this
    exact this
  · intro h j hj
    rw [List.mem_range'_1] at hj
    simp only [Bool.not_eq_true', decide_eq_false_iff_not, not_lt]
    exact h j hj.1 (by omega)

theorem window_high_iff {lb : ℕ} {cs : List Candle} {i : ℕ}
    (hl : lb ≤ i) (hr : i + lb < cs.length) :
    highs_max (cslice cs (i - lb) (i + lb + 1)) ≤ (cat cs i).high ↔
      ∀ j, i - lb ≤ j → j ≤ i + lb → (cat cs j).high ≤ (cat cs i).high := by
  have hne : cslice cs (i - lb) (i + lb + 1) ≠ [] :=
    cslice_ne_nil (by omega) (by omega)
  rw [highs_max_le_iff hne]
  constructor
  · intro h j hj1 hj2
    exact h (cat cs j) ((mem_cslice_iff cs _ _ _).mpr ⟨j, hj1, by omega, by omega, rfl⟩)
  · intro h c hc
    obtain ⟨j, hj1, hj2, hj3, rfl⟩ := (mem_cslice_iff cs _ _ _).mp hc
    exact h j hj1 (by omega)

theorem window_low_iff {lb : ℕ} {cs : List Candle} {i : ℕ}
    (hl : lb ≤ i) (hr : i + lb < cs.length) :
    (cat cs i).low ≤ lows_min (cslice cs (i - lb) (i + lb + 1)) ↔
      ∀ j, i - lb ≤ j → j ≤ i + lb → (cat cs i).low ≤ (cat cs j).low := by
  have hne : cslice cs (i - lb) (i + lb + 1) ≠ [] :=
    cslice_ne_nil (by omega) (by omega)
  rw [le_lows_min_iff hne]
  constructor
  · intro h j hj1 hj2
    exact h (cat cs j) ((mem_cslice_iff cs _ _ _).mpr ⟨j, hj1, by omega, by omega, rfl⟩)
  · intro h c hc
    obtain ⟨j, hj1, hj2, hj3, rfl⟩ := (mem_cslice_iff cs _ _ _).mp hc
    exact h j hj1 (by omega)

/-- Claim C8: a swing high is detected by find_swings at index i exactly
when i is an interior index (L <= i, i + L < len) and candles[i].high is
greater than or equal to the maximum high over the inclusive window
[i-L, i+L] (so ties still count as swings); symmetrically a swing low is
detected exactly when candles[i].low is less than or equal to the window
minimum low. -/
theorem swings_window_extreme (L : ℕ) (cs : List Candle) (i : ℕ) :
    (i ∈ find_swing_highs L cs ↔
      L ≤ i ∧ i + L < cs.length ∧
        highs_max (cslice cs (i - L) (i + L + 1)) ≤ (cat cs i).high) ∧
    (i ∈ find_swing_lows L cs ↔
      L ≤ i ∧ i + L < cs.length ∧
        (cat cs i).low ≤ lows_min (cslice cs (i - L) (i + L + 1))) := by
  constructor
  · unfold find_swing_highs
    by_cases hlen : cs.length ≤ L * 2
    · simp only [hlen, if_true, List.not_mem_nil, false_iff, not_and]
      intro h1 h2
      omega
    · simp only [hlen, if_false, List.mem_filter, List.mem_range'_1]
      constructor
      · rintro ⟨⟨h1, h2⟩, h3⟩
        have hr : i + L < cs.length := by omega
        exact ⟨h1, hr, (window_high_iff h1 hr).mpr ((swing_high_at_iff h1 hr).mp h3)⟩
      · rintro ⟨h1, h2, h3⟩
        exact ⟨⟨h1, by omega⟩,
          (swing_high_at_iff h1 h2).mpr ((window_high_iff h1 h2).mp h3)⟩
  · unfold find_swing_lows
    by_cases hlen : cs.length ≤ L * 2
    · simp only [hlen, if_true, List.not_mem_nil, false_iff, not_and]
      intro h1 h2
      omega
    · simp only [hlen, if_false, List.mem_filter, List.mem_range'_1]
      constructor
      · rintro ⟨⟨h1, h2⟩, h3⟩
        have hr : i + L < cs.length := by omega
        exact ⟨h1, hr, (window_low_iff h1 hr).mpr ((swing_low_at_iff h1 hr).mp h3)⟩
      · rintro ⟨h1, h2, h3⟩
        exact ⟨⟨h1, by omega⟩,
          (swing_low_at_iff h1 h2).mpr ((window_low_iff h1 h2).mp h3)⟩

/-! ### KellyCriterion (src/core/kelly.rs)

Trait HasPnl (a pnl value and a reason string) is modelled by the record
PnlTrade; str::contains is the substring test has_sub. -/

structure PnlTrade where
  pnl : ℚ
  reason : List Char
  deriving DecidableEq, Repr

/-- Rust str::contains on the list-of-chars string model. -/
def has_sub (hay needle : List Char) : Bool :=
  hay.tails.any fun t => needle.isPrefixOf t

def min_sample_size : ℕ := 20
def default_fraction : ℚ := 5 / 1000
def kelly_multiplier : ℚ := 1 / 2
def max_kelly_fraction : ℚ := 6 / 100
def min_kelly_fraction : ℚ := 2 / 1000
def rolling_window : ℕ := 100

structure KellyResult where
  full_kelly : ℚ
  applied_fraction : ℚ
  win_rate : ℚ
  loss_rate : ℚ
  payoff_ratio : ℚ
  sample_size : ℕ
  using_default : Bool
  edge : ℚ
  deriving DecidableEq, Repr

/-- Scale filter of KellyCriterion::calculate: keep trades whose reason
contains the scale tag. -/
def kelly_filter (trade_history : List PnlTrade) (scale : Option (List Char)) :
    List PnlTrade :=
  match scale with
  | some s => trade_history.filter fun t => has_sub t.reason s
  | none => trade_history

/-- Rolling window of KellyCriterion::calculate: keep the last 100. -/
def kelly_window (trades : List PnlTrade) : List PnlTrade :=
  if rolling_window < trades.length then trades.drop (trades.length - rolling_window)
  else trades

def kelly_wins (trades : List PnlTrade) : List PnlTrade :=
  trades.filter fun t => decide (0 < t.pnl)

def kelly_losses (trades : List PnlTrade) : List PnlTrade :=
  trades.filter fun t => decide (t.pnl ≤ 0)

def kelly_p (trades : List PnlTrade) : ℚ :=
  ((kelly_wins trades).length : ℚ) / (trades.length : ℚ)

def kelly_avg_win (trades : List PnlTrade) : ℚ :=
  if (kelly_wins trades).length ≠ 0 then
    ((kelly_wins trades).map (·.pnl)).sum / ((kelly_wins trades).length : ℚ)
  else 0

def kelly_avg_loss (trades : List PnlTrade) : ℚ :=
  if (kelly_losses trades).length ≠ 0 then
    |((kelly_losses trades).map (·.pnl)).sum / ((kelly_losses trades).length : ℚ)|
  else 1

def kelly_b (trades : List PnlTrade) : ℚ :=
  if 0 < kelly_avg_loss trades then kelly_avg_win trades / kelly_avg_loss trades else 0

/-- Full Kelly fraction (b*p - q) / b of the windowed sample, 0 when b is
not positive. -/
def kelly_full (trades : List PnlTrade) : ℚ :=
  if 0 < kelly_b trades then
    (kelly_b trades * kelly_p trades - (1 - kelly_p trades)) / kelly_b trades
  else 0

/-- The applied fraction before final rounding: floor-clamp for a
non-positive full Kelly, otherwise half Kelly clamped to
[min_kelly_fraction, max_kelly_fraction]. -/
def kelly_applied (trades : List PnlTrade) : ℚ :=
  if kelly_full trades ≤ 0 then min_kelly_fraction
  else min (max (kelly_full trades * kelly_multiplier) min_kelly_fraction)
    max_kelly_fraction

/-- Body of KellyCriterion::calculate on the filtered windowed sample. -/
def kelly_result_of (trades : List PnlTrade) : KellyResult :=
  if trades.length < min_sample_size then
    { full_kelly := 0, applied_fraction := default_fraction, win_rate := 0,
      loss_rate := 0, payoff_ratio := 0, sample_size := trades.length,
      using_default := true, edge := 0 }
  else
    { full_kelly := round6 (kelly_full trades),
      applied_fraction := round6 (kelly_applied trades),
      win_rate := round4 (kelly_p trades),
      loss_rate := round4 (1 - kelly_p trades),
      payoff_ratio := round4 (kelly_b trades),
      sample_size := trades.length, using_default := false,
      edge := round4 (kelly_b trades * kelly_p trades - (1 - kelly_p trades)) }

/-- KellyCriterion::calculate (the scale_results cache insertion is a
side table not modelled; the returned KellyResult is). -/
def calculate (trade_history : List PnlTrade) (scale : Option (List Char)) :
    KellyResult :=
  kelly_result_of (kelly_window (kelly_filter trade_history scale))

theorem round6_fixed_floor : round6 min_kelly_fraction = min_kelly_fraction :=
  rround_fixed (by norm_num) ⟨2000, by norm_num [min_kelly_fraction]⟩

theorem round6_fixed_ceil : round6 max_kelly_fraction = max_kelly_fraction :=
  rround_fixed (by norm_num) ⟨60000, by norm_num [max_kelly_fraction]⟩

/-- Claim C2: below 20 filtered rolling-window samples, calculate returns
exactly the default fraction 0.005 with using_default = true; with at
least 20 samples the applied fraction always lies in [0.002, 0.06]
(hence is never zero), and a non-positive full Kelly yields exactly the
floor 0.002, regardless of the trade pnl values. -/
theorem kelly_applied_fraction_bounds (trade_history : List PnlTrade)
    (scale : Option (List Char)) :
    (((kelly_window (kelly_filter trade_history scale)).length < 20) →
      (calculate trade_history scale).applied_fraction = 5 / 1000 ∧
      (calculate trade_history scale).using_default = true) ∧
    ((20 ≤ (kelly_window (kelly_filter trade_history scale)).length) →
      2 / 1000 ≤ (calculate trade_history scale).applied_fraction ∧
      (calculate trade_history scale).applied_fraction ≤ 6 / 100 ∧
      0 < (calculate trade_history scale).applied_fraction ∧
      (kelly_full (kelly_window (kelly_filter trade_history scale)) ≤ 0 →
        (calculate trade_history scale).applied_fraction = 2 / 1000)) := by
  constructor
  · intro hlen
    unfold calculate kelly_result_of
    rw [if_pos (show _ < min_sample_size from hlen)]
    exact ⟨rfl, rfl⟩
  · intro hlen
    have hnot : ¬ (kelly_window (kelly_filter trade_history scale)).length
        < min_sample_size := by
      unfold min_sample_size
      omega
    unfold calculate kelly_result_of
    rw [if_neg hnot]
    show 2 / 1000 ≤ round6 (kelly_applied _) ∧ round6 (kelly_applied _) ≤ 6 / 100 ∧
      0 < round6 (kelly_applied _) ∧ (kelly_full _ ≤ 0 → round6 (kelly_applied _) = 2 / 1000)
    have hbounds : ∀ trades, min_kelly_fraction ≤ kelly_applied trades ∧
        kelly_applied trades ≤ max_kelly_fraction := by
      intro trades
      unfold kelly_applied
      by_cases hfk : kelly_full trades ≤ 0
      · rw [if_pos hfk]
        norm_num [min_kelly_fraction, max_kelly_fraction]
      · rw [if_neg hfk]
        refine ⟨le_min (le_max_right _ _) ?_, min_le_right _ _⟩
        norm_num [min_kelly_fraction, max_kelly_fraction]
    obtain ⟨hlow, hhigh⟩ := hbounds (kelly_window (kelly_filter trade_history scale))
    have h1 : (2 : ℚ) / 1000 ≤
        round6 (kelly_applied (kelly_window (kelly_filter trade_history scale))) := by
      calc (2 : ℚ) / 1000 = round6 min_kelly_fraction := by
            rw [round6_fixed_floor]
            norm_num [min_kelly_fraction]
        _ ≤ _ := rround_mono (by norm_num) hlow
    have h2 : round6 (kelly_applied (kelly_window (kelly_filter trade_history scale)))
        ≤ 6 / 100 := by
      calc round6 _ ≤ round6 max_kelly_fraction := rround_mono (by norm_num) hhigh
        _ = 6 / 100 := by
            rw [round6_fixed_ceil]
            norm_num [max_kelly_fraction]
    refine ⟨h1, h2, by linarith, fun h => ?_⟩
    have happ : kelly_applied (kelly_window (kelly_filter trade_history scale))
        = min_kelly_fraction := by
      unfold kelly_applied
      rw [if_pos h]
    rw [happ, round6_fixed_floor]
    norm_num [min_kelly_fraction]

/-- Concrete Kelly samples for the witness: 25 losing trades (sample at
least 20, non-positive full Kelly) and 3 trades (below the minimum). -/
def kelly_hist25 : List PnlTrade := List.replicate 25 ⟨-1, ['5', 'm']⟩

def kelly_hist3 : List PnlTrade := List.replicate 3 ⟨1, ['5', 'm']⟩

theorem kelly_hist25_sample : kelly_window (kelly_filter kelly_hist25 none)
    = kelly_hist25 := rfl

theorem kelly_full_hist25 : kelly_full kelly_hist25 ≤ 0 := by
  have hw : kelly_wins kelly_hist25 = [] := by
    rw [kelly_wins, List.filter_eq_nil_iff]
    intro a ha
    rw [List.eq_of_mem_replicate ha]
    norm_num
  unfold kelly_full kelly_b kelly_avg_win
  rw [hw]
  simp

theorem kelly_applied_fraction_bounds_witness :
    (calculate kelly_hist25 none).applied_fraction = 2 / 1000 ∧
    (calculate kelly_hist3 none).applied_fraction = 5 / 1000 := by
  constructor
  · exact ((kelly_applied_fraction_bounds kelly_hist25 none).2 (by decide)).2.2.2
      (by rw [kelly_hist25_sample]; exact kelly_full_hist25)
  · exact ((kelly_applied_fraction_bounds kelly_hist3 none).1 (by decide)).1

/-! ### Pda (src/core/pd_arrays.rs) and CisdDetector (src/core/cisd.rs) -/

structure Pda where
  pda_type : PdaType
  direction : Trend
  zone : Zone
  high : ℚ
  low : ℚ
  midpoint : ℚ
  timestamp : ℤ
  timeframe : Timeframe
  strength : ℚ
  deriving DecidableEq, Repr

structure CisdConfirmation where
  direction : Trend
  breaker : Pda
  confirmation_candle : ℤ
  close_price : ℚ
  strength : ℚ
  deriving DecidableEq, Repr

/-- Bullish confirming-candle test of CisdDetector::check. -/
def cisd_bullish_hit (brk : Pda) (c : Candle) : Bool :=
  decide (brk.high < c.close) && decide (c.open_ < c.close)

/-- Bearish confirming-candle test of CisdDetector::check. -/
def cisd_bearish_hit (brk : Pda) (c : Candle) : Bool :=
  decide (c.close < brk.low) && decide (c.close < c.open_)

/-- Per-breaker inner loop of CisdDetector::check: the first candle of the
scanned window that matches the direction rule produces the confirmation
(the Rust loop breaks on the first push). -/
def cisd_for_breaker (latest : List Candle) (brk : Pda) : Option CisdConfirmation :=
  match brk.direction with
  | Trend.Bullish =>
      (latest.find? (cisd_bullish_hit brk)).map fun c =>
        { direction := Trend.Bullish, breaker := brk,
          confirmation_candle := c.timestamp, close_price := c.close,
          strength := min ((c.close - brk.high) / (brk.high - brk.low + 1 / 100)) 1 }
  | Trend.Bearish =>
      (latest.find? (cisd_bearish_hit brk)).map fun c =>
        { direction := Trend.Bearish, breaker := brk,
          confirmation_candle := c.timestamp, close_price := c.close,
          strength := min ((brk.low - c.close) / (brk.high - brk.low + 1 / 100)) 1 }
  | Trend.Neutral => none

/-- CisdDetector::check: scans the tail-5 window of the confirmation
series once per breaker, collecting at most one confirmation each. -/
def cisd_check (candles : List Candle) (breaker_blocks : List Pda) :
    List CisdConfirmation :=
  if breaker_blocks.isEmpty || candles.isEmpty then []
  else breaker_blocks.filterMap (cisd_for_breaker (ctail candles 5))

theorem cisd_for_breaker_spec {latest : List Candle} {brk : Pda}
    {conf : CisdConfirmation} (h : cisd_for_breaker latest brk = some conf) :
    conf.breaker = brk ∧ conf.direction = brk.direction ∧
    ((brk.direction = Trend.Bullish →
      conf.strength =
        min ((conf.close_price - brk.high) / (brk.high - brk.low + 1 / 100)) 1) ∧
     (brk.direction = Trend.Bearish →
      conf.strength =
        min ((brk.low - conf.close_price) / (brk.high - brk.low + 1 / 100)) 1)) := by
  unfold cisd_for_breaker at h
  cases hdir : brk.direction with
  | Bullish =>
      rw [hdir] at h
      rw [Option.map_eq_some'] at h
      obtain ⟨c, hc, rfl⟩ := h
      exact ⟨rfl, rfl, fun _ => rfl, fun hcontra => nomatch hcontra⟩
  | Bearish =>
      rw [hdir] at h
      rw [Option.map_eq_some'] at h
      obtain ⟨c, hc, rfl⟩ := h
      refine ⟨rfl, rfl, fun hcontra => ?_, fun _ => rfl⟩
      exact absurd hcontra (by decide)
  | Neutral =>
      rw [hdir] at h
      cases h

/-- Claim C3 (amended): every CISD confirmation recorded by
CisdDetector::check has strength min(1, d / (r + 0.01)), where d is the
distance of the confirming close beyond the breaker edge and r is the
breaker range; the source adds the 0.01 guard to the denominator, so the
strength is NOT d / r as the claim words it. -/
theorem cisd_strength_formula (candles : List Candle) (breaker_blocks : List Pda)
    (conf : CisdConfirmation) (h : conf ∈ cisd_check candles breaker_blocks) :
    conf.direction = conf.breaker.direction ∧
    (conf.direction = Trend.Bullish →
      conf.strength = min ((conf.close_price - conf.breaker.high) /
        (conf.breaker.high - conf.breaker.low + 1 / 100)) 1) ∧
    (conf.direction = Trend.Bearish →
      conf.strength = min ((conf.breaker.low - conf.close_price) /
        (conf.breaker.high - conf.breaker.low + 1 / 100)) 1) := by
  unfold cisd_check at h
  by_cases hempty : breaker_blocks.isEmpty || candles.isEmpty
  · rw [if_pos hempty] at h
    cases h
  · rw [if_neg hempty] at h
    rw [List.mem_filterMap] at h
    obtain ⟨brk, _, hsome⟩ := h
    obtain ⟨hbrk, hdir, hbull, hbear⟩ := cisd_for_breaker_spec hsome
    subst hbrk
    refine ⟨hdir, fun hb => ?_, fun hb => ?_⟩
    · exact hbull (hdir ▸ hb)
    · exact hbear (hdir ▸ hb)

/-- Concrete counterexample input for C3: the test-suite breaker
[100, 105] and a candle closing at 107 with a bullish body. -/
def cex_breaker : Pda :=
  { pda_type := PdaType.BRK, direction := Trend.Bullish, zone := Zone.Discount,
    high := 105, low := 100, midpoint := 1025 / 10, timestamp := 0,
    timeframe := Timeframe.M1, strength := 7 / 10 }

def cex_cisd_candle : Candle :=
  { timestamp := 0, open_ := 102, high := 108, low := 101, close := 107, volume := 100 }

def cex_cisd_candles : List Candle := [cex_cisd_candle]

/-- The confirmation cisd_check records at the counterexample input. -/
def cex_cisd_conf : CisdConfirmation :=
  { direction := Trend.Bullish, breaker := cex_breaker,
    confirmation_candle := 0, close_price := 107, strength := 200 / 501 }

theorem cisd_cex_eval : cisd_check cex_cisd_candles [cex_breaker] = [cex_cisd_conf] := by
  have hhit : cisd_bullish_hit cex_breaker cex_cisd_candle = true := by
    unfold cisd_bullish_hit cex_breaker cex_cisd_candle
    rw [Bool.and_eq_true, decide_eq_true_eq, decide_eq_true_eq]
    norm_num
  have htail : ctail cex_cisd_candles 5 = [cex_cisd_candle] := rfl
  unfold cisd_check
  rw [if_neg (by simp [cex_cisd_candles])]
  rw [htail]
  show List.filterMap (cisd_for_breaker [cex_cisd_candle]) [cex_breaker] = _
  rw [List.filterMap_cons]
  have hbrk : cisd_for_breaker [cex_cisd_candle] cex_breaker = some cex_cisd_conf := by
    unfold cisd_for_breaker
    simp only [show cex_breaker.direction = Trend.Bullish from rfl]
    rw [List.find?_cons_of_pos _ hhit, Option.map_some']
    simp only [Option.some.injEq, CisdConfirmation.mk.injEq]
    have hval : (cex_cisd_candle.close - cex_breaker.high) /
        (cex_breaker.high - cex_breaker.low + 1 / 100) = 200 / 501 := by
      unfold cex_cisd_candle cex_breaker
      norm_num
    unfold cex_cisd_conf
    simp only [hval]
    rw [min_eq_left (by norm_num)]
    simp
    exact ⟨rfl, rfl⟩
  rw [hbrk]
  rfl

/-- Claim C3 counterexample: at this input the recorded confirmation has
strength 2 / 5.01 = 200/501, while the claim's formula min(1, d / r)
would give 2/5; the claim as stated is false. -/
theorem cisd_strength_claim_false :
    ∃ conf ∈ cisd_check cex_cisd_candles [cex_breaker],
      conf.strength ≠
        min ((conf.close_price - conf.breaker.high) /
          (conf.breaker.high - conf.breaker.low)) 1 := by
  refine ⟨cex_cisd_conf, by rw [cisd_cex_eval]; exact List.mem_singleton.mpr rfl, ?_⟩
  unfold cex_cisd_conf cex_breaker
  norm_num

/-- Witness for the amended C3 theorem at the counterexample input. -/
theorem cisd_strength_formula_witness :
    cex_cisd_conf.direction = cex_cisd_conf.breaker.direction ∧
    cex_cisd_conf.strength = min ((cex_cisd_conf.close_price - cex_cisd_conf.breaker.high) /
      (cex_cisd_conf.breaker.high - cex_cisd_conf.breaker.low + 1 / 100)) 1 := by
  have h := cisd_strength_formula cex_cisd_candles [cex_breaker] cex_cisd_conf
    (by rw [cisd_cex_eval]; exact List.mem_singleton.mpr rfl)
  exact ⟨h.1, h.2.1 rfl⟩

/-! ### StopLossEngine (src/core/stop_loss.rs)

RawSwing records loop index, timestamp, extreme price and body prices of
a raw swing candidate; ProtectedSwing is the validated swing.  The reason
log string of StopLossLevel is not modelled. -/

structure RawSwing where
  index : ℕ
  timestamp : ℤ
  price : ℚ
  close : ℚ
  open_ : ℚ
  deriving DecidableEq, Repr

structure ProtectedSwing where
  swing_type : SwingType
  extreme : ℚ
  body_level : ℚ
  timestamp : ℤ
  sweep_confirmed : Bool
  close_confirmed : Bool
  strength : ℚ
  candle_count : ℕ
  deriving DecidableEq, Repr

structure StopLossLevel where
  price : ℚ
  mode : StopMode
  protected_swing : ProtectedSwing
  risk_distance : ℚ
  risk_percent : ℚ
  deriving DecidableEq, Repr

/-- Window test of StopLossEngine::find_raw_swings for a swing high:
candles[i].high >= highs_max of slice(i-lb, min(i+lb+1, len)). -/
def raw_swing_high_cond (lb : ℕ) (cs : List Candle) (i : ℕ) : Bool :=
  decide (highs_max (cslice cs (i - lb) (min (i + lb + 1) cs.length)) ≤ (cat cs i).high)

def raw_swing_low_cond (lb : ℕ) (cs : List Candle) (i : ℕ) : Bool :=
  decide ((cat cs i).low ≤ lows_min (cslice cs (i - lb) (min (i + lb + 1) cs.length)))

def mk_raw_swing (cs : List Candle) (price_of : Candle → ℚ) (i : ℕ) : RawSwing :=
  { index := i, timestamp := (cat cs i).timestamp, price := price_of (cat cs i),
    close := (cat cs i).close, open_ := (cat cs i).open_ }

/-- StopLossEngine::find_raw_swings, high side: loop over
i in lb..(len.saturating_sub lb). -/
def find_raw_swing_highs (lb : ℕ) (cs : List Candle) : List RawSwing :=
  ((List.range' lb (cs.length - lb - lb)).filter (raw_swing_high_cond lb cs)).map
    (mk_raw_swing cs (·.high))

def find_raw_swing_lows (lb : ℕ) (cs : List Candle) : List RawSwing :=
  ((List.range' lb (cs.length - lb - lb)).filter (raw_swing_low_cond lb cs)).map
    (mk_raw_swing cs (·.low))

/-- Sweep test of StopLossEngine::validate_protected_swing: prior 20-bar
extreme exceeded, or a directionally matching PDA edge swept. -/
def vps_sweep (cs : List Candle) (swing : RawSwing) (swing_type : SwingType)
    (pdas : Option (List Pda)) : Bool :=
  match swing_type with
  | SwingType.Low =>
      (!(cslice cs (swing.index - 20) swing.index).isEmpty &&
        decide (swing.price ≤ lows_min (cslice cs (swing.index - 20) swing.index))) ||
      (match pdas with
       | some pda_list => pda_list.any fun pda =>
           decide (pda.direction = Trend.Bullish) && decide (swing.price ≤ pda.high)
       | none => false)
  | SwingType.High =>
      (!(cslice cs (swing.index - 20) swing.index).isEmpty &&
        decide (highs_max (cslice cs (swing.index - 20) swing.index) ≤ swing.price)) ||
      (match pdas with
       | some pda_list => pda_list.any fun pda =>
           decide (pda.direction = Trend.Bearish) && decide (pda.low ≤ swing.price)
       | none => false)

/-- Confirmation-close test of validate_protected_swing: a candle within
the 5 bars after the swing closes back through the pre-swing extreme. -/
def vps_close (cs : List Candle) (swing : RawSwing) (swing_type : SwingType) : Bool :=
  match swing_type with
  | SwingType.Low =>
      (cslice cs (swing.index + 1) (min (swing.index + 6) cs.length)).any fun c =>
        decide (highs_max (cslice cs (swing.index - 2) (swing.index + 1)) < c.close)
  | SwingType.High =>
      (cslice cs (swing.index + 1) (min (swing.index + 6) cs.length)).any fun c =>
        decide (c.close < lows_min (cslice cs (swing.index - 2) (swing.index + 1)))

/-- StopLossEngine::validate_protected_swing. -/
def validate_protected_swing (cs : List Candle) (swing : RawSwing)
    (swing_type : SwingType) (pdas : Option (List Pda)) : Option ProtectedSwing :=
  if cs.length ≤ swing.index + 2 then none
  else if vps_sweep cs swing swing_type pdas || vps_close cs swing swing_type then
    some { swing_type := swing_type, extreme := swing.price,
           body_level := match swing_type with
             | SwingType.Low => max swing.close swing.open_
             | SwingType.High => min swing.close swing.open_,
           timestamp := swing.timestamp,
           sweep_confirmed := vps_sweep cs swing swing_type pdas,
           close_confirmed := vps_close cs swing swing_type,
           strength := 3 / 10 +
             (if vps_sweep cs swing swing_type pdas then 35 / 100 else 0) +
             (if vps_close cs swing swing_type then 35 / 100 else 0),
           candle_count := min 3 (swing.index + 1) }
  else none

/-- StopLossEngine::find_protected_swings: validate the raw highs then
the raw lows, then sort by timestamp descending (stable). -/
def find_protected_swings (lb : ℕ) (cs : List Candle) (pdas : Option (List Pda)) :
    List ProtectedSwing :=
  if cs.length < lb + 2 then []
  else
    (((find_raw_swing_highs lb cs).filterMap fun sh =>
        validate_protected_swing cs sh SwingType.High pdas) ++
     ((find_raw_swing_lows lb cs).filterMap fun sl =>
        validate_protected_swing cs sl SwingType.Low pdas)).mergeSort
      fun a b => decide (b.timestamp ≤ a.timestamp)

theorem validate_flags {cs : List Candle} {swing : RawSwing} {ty : SwingType}
    {pdas : Option (List Pda)} {ps : ProtectedSwing}
    (h : validate_protected_swing cs swing ty pdas = some ps) :
    ps.sweep_confirmed = vps_sweep cs swing ty pdas ∧
    ps.close_confirmed = vps_close cs swing ty ∧
    (vps_sweep cs swing ty pdas = true ∨ vps_close cs swing ty = true) := by
  unfold validate_protected_swing at h
  by_cases h1 : cs.length ≤ swing.index + 2
  · rw [if_pos h1] at h
    cases h
  · rw [if_neg h1] at h
    by_cases h2 : vps_sweep cs swing ty pdas || vps_close cs swing ty
    · rw [if_pos h2] at h
      rw [Option.some.injEq] at h
      subst h
      exact ⟨rfl, rfl, Bool.or_eq_true .. |>.mp h2⟩
    · rw [if_neg h2] at h
      cases h

/-- Claim C1 (amended): every ProtectedSwing returned by
find_protected_swings has sweep_confirmed OR close_confirmed true (the
source admits a swing on either condition, not on their conjunction), and
its recorded flags are exactly the sweep and confirmation-close tests. -/
theorem protected_swings_flags (lb : ℕ) (cs : List Candle)
    (pdas : Option (List Pda)) (ps : ProtectedSwing)
    (h : ps ∈ find_protected_swings lb cs pdas) :
    ps.sweep_confirmed = true ∨ ps.close_confirmed = true := by
  unfold find_protected_swings at h
  by_cases hlen : cs.length < lb + 2
  · rw [if_pos hlen] at h
    cases h
  · rw [if_neg hlen] at h
    rw [List.mem_mergeSort, List.mem_append] at h
    rcases h with h | h <;>
    · rw [List.mem_filterMap] at h
      obtain ⟨r, _, hv⟩ := h
      obtain ⟨hs, hc, hor⟩ := validate_flags hv
      rcases hor with hor | hor
      · exact Or.inl (hs.trans hor)
      · exact Or.inr (hc.trans hor)

/-- Concrete candle series for the C1 counterexample: one raw swing low
at index 3 (the global minimum low 990) that sweeps the prior 20-bar low
but is never followed within 5 bars by a close above the pre-swing high
1015, so its ProtectedSwing has sweep_confirmed true and close_confirmed
false. -/
def cex_stop_candles : List Candle :=
  [ { timestamp := 0, open_ := 1000, high := 1010, low := 995, close := 1005, volume := 100 },
    { timestamp := 1, open_ := 1005, high := 1015, low := 996, close := 1000, volume := 100 },
    { timestamp := 2, open_ := 1000, high := 1010, low := 997, close := 1002, volume := 100 },
    { timestamp := 3, open_ := 1002, high := 1008, low := 990, close := 1001, volume := 100 },
    { timestamp := 4, open_ := 1001, high := 1009, low := 998, close := 1003, volume := 100 },
    { timestamp := 5, open_ := 1003, high := 1007, low := 999, close := 1004, volume := 100 },
    { timestamp := 6, open_ := 1004, high := 1006, low := 1000, close := 1002, volume := 100 },
    { timestamp := 7, open_ := 1002, high := 1005, low := 999, close := 1000, volume := 100 } ]

/-- The single protected swing of cex_stop_candles. -/
def cex_protected : ProtectedSwing :=
  { swing_type := SwingType.Low, extreme := 990, body_level := 1002,
    timestamp := 3, sweep_confirmed := true, close_confirmed := false,
    strength := 13 / 20, candle_count := 3 }

theorem cex_stop_eval :
    find_protected_swings 3 cex_stop_candles none = [cex_protected] := by
  have hpre : ((find_raw_swing_highs 3 cex_stop_candles).filterMap fun sh =>
        validate_protected_swing cex_stop_candles sh SwingType.High none) ++
      ((find_raw_swing_lows 3 cex_stop_candles).filterMap fun sl =>
        validate_protected_swing cex_stop_candles sl SwingType.Low none) =
      [cex_protected] := by
    norm_num [find_raw_swing_highs, find_raw_swing_lows, raw_swing_high_cond,
      raw_swing_low_cond, mk_raw_swing, validate_protected_swing, vps_sweep,
      vps_close, cex_stop_candles, cslice, cat, highs_max, lows_min,
      List.range', max_def, min_def, cex_protected, List.filterMap_cons]
  unfold find_protected_swings
  rw [if_neg (by norm_num [cex_stop_candles])]
  rw [hpre]
  have hperm := List.mergeSort_perm [cex_protected]
    fun a b => decide (b.timestamp ≤ a.timestamp)
  exact List.perm_singleton.mp hperm

/-- Claim C1 counterexample: at cex_stop_candles, find_protected_swings
returns a ProtectedSwing whose close_confirmed is false, so it is not
true that every returned swing has sweep AND close confirmed. -/
theorem protected_swings_claim_false :
    ∃ ps ∈ find_protected_swings 3 cex_stop_candles none,
      ¬(ps.sweep_confirmed = true ∧ ps.close_confirmed = true) := by
  refine ⟨cex_protected, ?_, ?_⟩
  · rw [cex_stop_eval]
    exact List.mem_singleton.mpr rfl
  · intro hcontra
    have := hcontra.2
    simp [cex_protected] at this

/-- Witness for the amended C1 theorem: the returned swing at the
concrete input has at least one of its flags set (here: sweep). -/
theorem protected_swings_flags_witness :
    cex_protected.sweep_confirmed = true ∨ cex_protected.close_confirmed = true :=
  protected_swings_flags 3 cex_stop_candles none cex_protected
    (by rw [cex_stop_eval]; exact List.mem_singleton.mpr rfl)

/-! ### StopLossEngine::get_trailing_stop -/

/-- Rust Iterator::max_by keyed by extreme (the last maximal element
wins, per the iterator contract). -/
def max_by_extreme (l : List ProtectedSwing) : Option ProtectedSwing :=
  l.foldl (fun acc s =>
    match acc with
    | none => some s
    | some b => if b.extreme ≤ s.extreme then some s else some b) none

/-- Rust Iterator::min_by keyed by extreme (the first minimal element
wins). -/
def min_by_extreme (l : List ProtectedSwing) : Option ProtectedSwing :=
  l.foldl (fun acc s =>
    match acc with
    | none => some s
    | some b => if s.extreme < b.extreme then some s else some b) none

/-- StopLossEngine::get_trailing_stop: recompute protected swings, keep
the candidates strictly beyond the current stop on the protective side,
move to the nearest (max protected low for longs, min protected high for
shorts), reporting the extreme rounded to 2 decimals. -/
def get_trailing_stop (lb : ℕ) (direction : Direction) (current_stop : ℚ)
    (cs : List Candle) (pdas : Option (List Pda)) : Option StopLossLevel :=
  match direction with
  | Direction.Long =>
      (max_by_extreme ((find_protected_swings lb cs pdas).filter fun s =>
        decide (s.swing_type = SwingType.Low) && decide (current_stop < s.extreme))).map
        fun best =>
          { price := round2 best.extreme, mode := StopMode.Wick,
            protected_swing := best, risk_distance := 0, risk_percent := 0 }
  | Direction.Short =>
      (min_by_extreme ((find_protected_swings lb cs pdas).filter fun s =>
        decide (s.swing_type = SwingType.High) && decide (s.extreme < current_stop))).map
        fun best =>
          { price := round2 best.extreme, mode := StopMode.Wick,
            protected_swing := best, risk_distance := 0, risk_percent := 0 }

theorem max_by_extreme_mem {l : List ProtectedSwing} {b : ProtectedSwing}
    (h : max_by_extreme l = some b) : b ∈ l := by
  unfold max_by_extreme at h
  suffices haux : ∀ (l : List ProtectedSwing) (acc : Option ProtectedSwing)
      (b : ProtectedSwing), l.foldl (fun acc s =>
        match acc with
        | none => some s
        | some b => if b.extreme ≤ s.extreme then some s else some b) acc = some b →
      acc = some b ∨ b ∈ l by
    rcases haux l none b h with hcontra | hmem
    · cases hcontra
    · exact hmem
  intro l
  induction l with
  | nil =>
      intro acc b h
      exact Or.inl h
  | cons s rest ih =>
      intro acc b h
      rw [List.foldl_cons] at h
      rcases ih _ b h with hacc | hmem
      · cases acc with
        | none =>
            rw [Option.some.injEq] at hacc
            exact Or.inr (List.mem_cons.mpr (Or.inl hacc.symm))
        | some prev =>
            dsimp only at hacc
            by_cases hcmp : prev.extreme ≤ s.extreme
            · rw [if_pos hcmp, Option.some.injEq] at hacc
              exact Or.inr (List.mem_cons.mpr (Or.inl hacc.symm))
            · rw [if_neg hcmp] at hacc
              exact Or.inl hacc
      · exact Or.inr (List.mem_cons.mpr (Or.inr hmem))

theorem min_by_extreme_mem {l : List ProtectedSwing} {b : ProtectedSwing}
    (h : min_by_extreme l = some b) : b ∈ l := by
  unfold min_by_extreme at h
  suffices haux : ∀ (l : List ProtectedSwing) (acc : Option ProtectedSwing)
      (b : ProtectedSwing), l.foldl (fun acc s =>
        match acc with
        | none => some s
        | some b => if s.extreme < b.extreme then some s else some b) acc = some b →
      acc = some b ∨ b ∈ l by
    rcases haux l none b h with hcontra | hmem
    · cases hcontra
    · exact hmem
  intro l
  induction l with
  | nil =>
      intro acc b h
      exact Or.inl h
  | cons s rest ih =>
      intro acc b h
      rw [List.foldl_cons] at h
      rcases ih _ b h with hacc | hmem
      · cases acc with
        | none =>
            rw [Option.some.injEq] at hacc
            exact Or.inr (List.mem_cons.mpr (Or.inl hacc.symm))
        | some prev =>
            dsimp only at hacc
            by_cases hcmp : s.extreme < prev.extreme
            · rw [if_pos hcmp, Option.some.injEq] at hacc
              exact Or.inr (List.mem_cons.mpr (Or.inl hacc.symm))
            · rw [if_neg hcmp] at hacc
              exact Or.inl hacc
      · exact Or.inr (List.mem_cons.mpr (Or.inr hmem))

/-- Claim C7 (amended): when get_trailing_stop returns an update, the
selected protected swing's extreme is strictly beyond the current stop on
the favorable side (above for longs, below for shorts); the returned
price is that extreme rounded to two decimals, and so may sit up to half
a cent on the wrong side of the current stop (the unrounded extreme, not
the reported price, is what is guaranteed strictly favorable). -/
theorem trailing_stop_favorable (lb : ℕ) (direction : Direction)
    (current_stop : ℚ) (cs : List Candle) (pdas : Option (List Pda))
    (lvl : StopLossLevel)
    (h : get_trailing_stop lb direction current_stop cs pdas = some lvl) :
    lvl.price = round2 lvl.protected_swing.extreme ∧
    (direction = Direction.Long →
      current_stop < lvl.protected_swing.extreme ∧
      current_stop - 1 / 200 ≤ lvl.price) ∧
    (direction = Direction.Short →
      lvl.protected_swing.extreme < current_stop ∧
      lvl.price ≤ current_stop + 1 / 200) := by
  unfold get_trailing_stop at h
  cases direction with
  | Long =>
      rw [Option.map_eq_some'] at h
      obtain ⟨best, hbest, rfl⟩ := h
      have hmem := max_by_extreme_mem hbest
      rw [List.mem_filter] at hmem
      have hcond := hmem.2
      rw [Bool.and_eq_true, decide_eq_true_eq, decide_eq_true_eq] at hcond
      refine ⟨rfl, fun _ => ⟨hcond.2, ?_⟩, fun hcontra => absurd hcontra (by decide)⟩
      have hr : best.extreme - 1 / 200 ≤ round2 best.extreme := by
        have := le_rround 100 (by norm_num) best.extreme
        calc best.extreme - 1 / 200 = best.extreme - 1 / (2 * 100) := by norm_num
          _ ≤ rround 100 best.extreme := this
      calc current_stop - 1 / 200 ≤ best.extreme - 1 / 200 := by linarith [hcond.2]
        _ ≤ round2 best.extreme := hr
  | Short =>
      rw [Option.map_eq_some'] at h
      obtain ⟨best, hbest, rfl⟩ := h
      have hmem := min_by_extreme_mem hbest
      rw [List.mem_filter] at hmem
      have hcond := hmem.2
      rw [Bool.and_eq_true, decide_eq_true_eq, decide_eq_true_eq] at hcond
      refine ⟨rfl, fun hcontra => absurd hcontra (by decide), fun _ => ⟨hcond.2, ?_⟩⟩
      have hr : round2 best.extreme ≤ best.extreme + 1 / 200 := by
        have := rround_le 100 (by norm_num) best.extreme
        calc rround 100 best.extreme ≤ best.extreme + 1 / (2 * 100) := this
          _ = best.extreme + 1 / 200 := by norm_num
      calc round2 best.extreme ≤ best.extreme + 1 / 200 := hr
        _ ≤ current_stop + 1 / 200 := by linarith [hcond.2]

/-- Concrete series for the C7 counterexample: the only protected swing
is a low with extreme 100.0045; with current stop 100.004 the trailing
update reports round2(100.0045) = 100.00, below the current stop. -/
def cex_trail_candles : List Candle :=
  [ { timestamp := 0, open_ := 10005 / 100, high := 10010 / 100, low := 10002 / 100, close := 10006 / 100, volume := 100 },
    { timestamp := 1, open_ := 10006 / 100, high := 10012 / 100, low := 10003 / 100, close := 10005 / 100, volume := 100 },
    { timestamp := 2, open_ := 10005 / 100, high := 10011 / 100, low := 10004 / 100, close := 10007 / 100, volume := 100 },
    { timestamp := 3, open_ := 10007 / 100, high := 10009 / 100, low := 1000045 / 10000, close := 10005 / 100, volume := 100 },
    { timestamp := 4, open_ := 10005 / 100, high := 10009 / 100, low := 10003 / 100, close := 10006 / 100, volume := 100 },
    { timestamp := 5, open_ := 10006 / 100, high := 10010 / 100, low := 100035 / 1000, close := 10007 / 100, volume := 100 },
    { timestamp := 6, open_ := 10007 / 100, high := 10011 / 100, low := 10004 / 100, close := 10008 / 100, volume := 100 },
    { timestamp := 7, open_ := 10008 / 100, high := 10012 / 100, low := 10005 / 100, close := 10009 / 100, volume := 100 } ]

def cex_trail_swing : ProtectedSwing :=
  { swing_type := SwingType.Low, extreme := 1000045 / 10000,
    body_level := 10007 / 100, timestamp := 3, sweep_confirmed := true,
    close_confirmed := false, strength := 13 / 20, candle_count := 3 }

theorem cex_trail_eval :
    find_protected_swings 3 cex_trail_candles none = [cex_trail_swing] := by
  have hpre : ((find_raw_swing_highs 3 cex_trail_candles).filterMap fun sh =>
        validate_protected_swing cex_trail_candles sh SwingType.High none) ++
      ((find_raw_swing_lows 3 cex_trail_candles).filterMap fun sl =>
        validate_protected_swing cex_trail_candles sl SwingType.Low none) =
      [cex_trail_swing] := by
    norm_num [find_raw_swing_highs, find_raw_swing_lows, raw_swing_high_cond,
      raw_swing_low_cond, mk_raw_swing, validate_protected_swing, vps_sweep,
      vps_close, cex_trail_candles, cslice, cat, highs_max, lows_min,
      List.range', max_def, min_def, cex_trail_swing, List.filterMap_cons]
  unfold find_protected_swings
  rw [if_neg (by norm_num [cex_trail_candles])]
  rw [hpre]
  have hperm := List.mergeSort_perm [cex_trail_swing]
    fun a b => decide (b.timestamp ≤ a.timestamp)
  exact List.perm_singleton.mp hperm

theorem cex_trail_result :
    get_trailing_stop 3 Direction.Long (25001 / 250) cex_trail_candles none =
      some { price := 100, mode := StopMode.Wick, protected_swing := cex_trail_swing,
             risk_distance := 0, risk_percent := 0 } := by
  unfold get_trailing_stop
  rw [cex_trail_eval]
  have hfilter : ([cex_trail_swing].filter fun s =>
      decide (s.swing_type = SwingType.Low) && decide ((25001 : ℚ) / 250 < s.extreme)) =
      [cex_trail_swing] := by
    rw [List.filter_eq_self]
    intro a ha
    rw [List.mem_singleton] at ha
    subst ha
    rw [Bool.and_eq_true, decide_eq_true_eq, decide_eq_true_eq]
    exact ⟨rfl, by norm_num [cex_trail_swing]⟩
  rw [hfilter]
  have hmax : max_by_extreme [cex_trail_swing] = some cex_trail_swing := rfl
  rw [hmax, Option.map_some']
  have hprice : round2 cex_trail_swing.extreme = 100 := by
    unfold cex_trail_swing round2 rround rust_round
    rw [if_pos (by norm_num)]
    rw [show round ((1000045 : ℚ) / 10000 * 100) = 10000 from by
      rw [round_eq]; norm_num]
    norm_num
  rw [hprice]

/-- Claim C7 counterexample: at cex_trail_candles with current stop
100.004 the long trailing stop returns Some with price 100.00, which is
NOT strictly greater than the current stop (the 2-decimal rounding moved
it below), falsifying the claim as stated. -/
theorem trailing_stop_claim_false :
    ∃ lvl, get_trailing_stop 3 Direction.Long (25001 / 250) cex_trail_candles none =
      some lvl ∧ ¬((25001 : ℚ) / 250 < lvl.price) := by
  refine ⟨_, cex_trail_result, ?_⟩
  norm_num

/-- Witness for the amended C7 theorem at the counterexample input. -/
theorem trailing_stop_favorable_witness :
    (25001 : ℚ) / 250 < cex_trail_swing.extreme ∧
    (25001 : ℚ) / 250 - 1 / 200 ≤ (100 : ℚ) := by
  have h := trailing_stop_favorable 3 Direction.Long (25001 / 250)
    cex_trail_candles none _ cex_trail_result
  have h2 := (h.2.1 rfl)
  exact ⟨h2.1, h2.2⟩

/-! ### CandleSeries::resample (src/models/candle.rs)

The Rust loop folds over the candles, merging each candle into the last
result bucket when its bucket timestamp matches, else pushing a fresh
bucket.  resample_fold is that loop verbatim; resample/resample_go is the
same computation with the open tail bucket held in an accumulator, proved
equal to the fold for every input. -/

/-- ts - ts % bucket_secs with Rust i64 % (truncated, Int.tmod). -/
def bucket_key (b : ℤ) (ts : ℤ) : ℤ := ts - ts.tmod b

/-- The fresh bucket pushed for a candle. -/
def mk_bucket (b : ℤ) (c : Candle) : Candle :=
  { timestamp := bucket_key b c.timestamp, open_ := c.open_, high := c.high,
    low := c.low, close := c.close, volume := c.volume }

/-- In-place merge of a candle into the last bucket. -/
def merge_candle (last c : Candle) : Candle :=
  { timestamp := last.timestamp, open_ := last.open_,
    high := max last.high c.high, low := min last.low c.low,
    close := c.close, volume := last.volume + c.volume }

/-- One iteration of the Rust resample loop. -/
def resample_step (b : ℤ) (result : List Candle) (c : Candle) : List Candle :=
  match result.getLast? with
  | some last =>
      if last.timestamp = bucket_key b c.timestamp then
        result.dropLast ++ [merge_candle last c]
      else result ++ [mk_bucket b c]
  | none => result ++ [mk_bucket b c]

/-- CandleSeries::resample as the source writes it. -/
def resample_fold (b : ℤ) (cs : List Candle) : List Candle :=
  cs.foldl (resample_step b) []

/-- Tail-bucket form of the loop: cur is the open last bucket. -/
def resample_go (b : ℤ) (cur : Candle) : List Candle → List Candle
  | [] => [cur]
  | c :: rest =>
      if cur.timestamp = bucket_key b c.timestamp then
        resample_go b (merge_candle cur c) rest
      else cur :: resample_go b (mk_bucket b c) rest

def resample (b : ℤ) : List Candle → List Candle
  | [] => []
  | c :: rest => resample_go b (mk_bucket b c) rest

theorem resample_fold_go (b : ℤ) :
    ∀ (rest : List Candle) (acc : List Candle) (cur : Candle),
      rest.foldl (resample_step b) (acc ++ [cur]) = acc ++ resample_go b cur rest := by
  intro rest
  induction rest with
  | nil => intro acc cur; rfl
  | cons c rs ih =>
      intro acc cur
      rw [List.foldl_cons]
      have hstep : resample_step b (acc ++ [cur]) c =
          if cur.timestamp = bucket_key b c.timestamp then
            acc ++ [merge_candle cur c]
          else (acc ++ [cur]) ++ [mk_bucket b c] := by
        unfold resample_step
        rw [List.getLast?_concat]
        dsimp only
        by_cases hk : cur.timestamp = bucket_key b c.timestamp
        · rw [if_pos hk, if_pos hk, List.dropLast_concat]
        · rw [if_neg hk, if_neg hk]
      rw [hstep]
      by_cases hk : cur.timestamp = bucket_key b c.timestamp
      · rw [if_pos hk, ih acc (merge_candle cur c), resample_go, if_pos hk]
      · rw [if_neg hk, ih (acc ++ [cur]) (mk_bucket b c), resample_go, if_neg hk,
          List.append_assoc, List.singleton_append]

/-- The source loop and its tail-bucket refactoring agree on every input. -/
theorem resample_fold_eq (b : ℤ) (cs : List Candle) :
    resample_fold b cs = resample b cs := by
  cases cs with
  | nil => rfl
  | cons c rest =>
      unfold resample_fold resample
      rw [List.foldl_cons]
      have hfirst : resample_step b [] c = [] ++ [mk_bucket b c] := rfl
      rw [hfirst, resample_fold_go b rest [] (mk_bucket b c), List.nil_append]

/-- The aggregate of a bucket group: the head seeds the bucket, the rest
merge into it. -/
def bucket_agg (b : ℤ) (d : Candle) (ds : List Candle) : Candle :=
  ds.foldl merge_candle (mk_bucket b d)

theorem foldl_merge_timestamp (g : List Candle) :
    ∀ a : Candle, (g.foldl merge_candle a).timestamp = a.timestamp := by
  induction g with
  | nil => intro a; rfl
  | cons c rest ih => intro a; rw [List.foldl_cons]; exact ih (merge_candle a c)

theorem foldl_merge_open (g : List Candle) :
    ∀ a : Candle, (g.foldl merge_candle a).open_ = a.open_ := by
  induction g with
  | nil => intro a; rfl
  | cons c rest ih => intro a; rw [List.foldl_cons]; exact ih (merge_candle a c)

theorem foldl_merge_close (g : List Candle) :
    ∀ a : Candle, (g.foldl merge_candle a).close = (g.map (·.close)).getLastD a.close := by
  induction g with
  | nil => intro a; rfl
  | cons c rest ih =>
      intro a
      rw [List.foldl_cons, List.map_cons, List.getLastD_cons, ih (merge_candle a c)]
      rfl

theorem foldl_merge_high (g : List Candle) :
    ∀ a : Candle, (g.foldl merge_candle a).high =
      g.foldl (fun m x => max m x.high) a.high := by
  induction g with
  | nil => intro a; rfl
  | cons c rest ih =>
      intro a
      rw [List.foldl_cons, List.foldl_cons, ih (merge_candle a c)]
      rfl

theorem foldl_merge_low (g : List Candle) :
    ∀ a : Candle, (g.foldl merge_candle a).low =
      g.foldl (fun m x => min m x.low) a.low := by
  induction g with
  | nil => intro a; rfl
  | cons c rest ih =>
      intro a
      rw [List.foldl_cons, List.foldl_cons, ih (merge_candle a c)]
      rfl

theorem foldl_merge_volume (g : List Candle) :
    ∀ a : Candle, (g.foldl merge_candle a).volume =
      a.volume + (g.map (·.volume)).sum := by
  induction g with
  | nil => intro a; simp
  | cons c rest ih =>
      intro a
      rw [List.foldl_cons, List.map_cons, List.sum_cons, ih (merge_candle a c)]
      show a.volume + c.volume + _ = _
      ring

theorem bucket_agg_append (b : ℤ) (d : Candle) (g : List Candle) (c : Candle) :
    bucket_agg b d (g ++ [c]) = merge_candle (bucket_agg b d g) c := by
  unfold bucket_agg
  rw [List.foldl_append]
  rfl

theorem tdiv_mono_nonneg {a a' b : ℤ} (ha : 0 ≤ a) (h : a ≤ a') (hb : 0 < b) :
    a.tdiv b ≤ a'.tdiv b := by
  by_contra hcon
  push_neg at hcon
  have h1 := Int.tdiv_add_tmod a b
  have h2 := Int.tdiv_add_tmod a' b
  have hr1 : 0 ≤ a.tmod b := Int.tmod_nonneg b ha
  have hr2 : a'.tmod b < b := Int.tmod_lt_of_pos a' hb
  have hq : a'.tdiv b + 1 ≤ a.tdiv b := hcon
  have hmul : b * (a'.tdiv b + 1) ≤ b * a.tdiv b :=
    mul_le_mul_of_nonneg_left hq hb.le
  have hexp : b * (a'.tdiv b + 1) = b * a'.tdiv b + b := by ring
  linarith

theorem tdiv_mono {a a' b : ℤ} (h : a ≤ a') (hb : 0 < b) :
    a.tdiv b ≤ a'.tdiv b := by
  rcases le_or_lt 0 a with ha | ha
  · exact tdiv_mono_nonneg ha h hb
  · rcases le_or_lt 0 a' with ha' | ha'
    · have h1 : a.tdiv b ≤ 0 := by
        have hneg : a.tdiv b = -((-a).tdiv b) := by
          rw [← Int.neg_tdiv, neg_neg]
        rw [hneg]
        have := Int.tdiv_nonneg (by omega : (0:ℤ) ≤ -a) hb.le
        omega
      have h2 : 0 ≤ a'.tdiv b := Int.tdiv_nonneg ha' hb.le
      omega
    · have hflip : (-a').tdiv b ≤ (-a).tdiv b :=
        tdiv_mono_nonneg (by omega) (by omega) hb
      have hna : (-a).tdiv b = -(a.tdiv b) := Int.neg_tdiv a b
      have hna' : (-a').tdiv b = -(a'.tdiv b) := Int.neg_tdiv a' b
      omega

theorem bucket_key_eq_mul (b t : ℤ) : bucket_key b t = b * t.tdiv b := by
  unfold bucket_key
  have := Int.tdiv_add_tmod t b
  linarith

theorem bucket_key_mono {b : ℤ} (hb : 0 < b) {t t' : ℤ} (h : t ≤ t') :
    bucket_key b t ≤ bucket_key b t' := by
  rw [bucket_key_eq_mul, bucket_key_eq_mul]
  exact mul_le_mul_of_nonneg_left (tdiv_mono h hb) hb.le

theorem resample_go_ts (b : ℤ) :
    ∀ (rest : List Candle) (cur : Candle) (o : Candle),
      o ∈ resample_go b cur rest →
      o.timestamp = cur.timestamp ∨ ∃ x ∈ rest, o.timestamp = bucket_key b x.timestamp := by
  intro rest
  induction rest with
  | nil =>
      intro cur o ho
      rw [resample_go, List.mem_singleton] at ho
      exact Or.inl (ho ▸ rfl)
  | cons c rs ih =>
      intro cur o ho
      rw [resample_go] at ho
      by_cases hk : cur.timestamp = bucket_key b c.timestamp
      · rw [if_pos hk] at ho
        rcases ih _ o ho with h | ⟨x, hx, hts⟩
        · exact Or.inl h
        · exact Or.inr ⟨x, List.mem_cons_of_mem _ hx, hts⟩
      · rw [if_neg hk] at ho
        rcases List.mem_cons.mp ho with rfl | ho
        · exact Or.inl rfl
        · rcases ih _ o ho with h | ⟨x, hx, hts⟩
          · exact Or.inr ⟨c, List.mem_cons_self .., h⟩
          · exact Or.inr ⟨x, List.mem_cons_of_mem _ hx, hts⟩

/-- Bucket keys are ordered along the series. -/
def keyP (b : ℤ) : Candle → Candle → Prop :=
  fun x y => bucket_key b x.timestamp ≤ bucket_key b y.timestamp

theorem resample_go_spec (b : ℤ) :
    ∀ (rest : List Candle) (c0 : Candle) (g : List Candle),
      (∀ x ∈ g, bucket_key b x.timestamp = bucket_key b c0.timestamp) →
      List.Pairwise (keyP b) (c0 :: (g ++ rest)) →
      ∀ o ∈ resample_go b (bucket_agg b c0 g) rest,
        ∃ d ds, (c0 :: (g ++ rest)).filter
            (fun c => decide (bucket_key b c.timestamp = o.timestamp)) = d :: ds ∧
          o = bucket_agg b d ds := by
  intro rest
  induction rest with
  | nil =>
      intro c0 g hg hpw o ho
      rw [resample_go, List.mem_singleton] at ho
      subst ho
      have hts : (bucket_agg b c0 g).timestamp = bucket_key b c0.timestamp :=
        foldl_merge_timestamp g (mk_bucket b c0)
      refine ⟨c0, g, ?_, rfl⟩
      rw [List.append_nil]
      have : ∀ x ∈ c0 :: g,
          (fun c => decide (bucket_key b c.timestamp = (bucket_agg b c0 g).timestamp)) x
            = true := by
        intro x hx
        rw [decide_eq_true_eq, hts]
        rcases List.mem_cons.mp hx with rfl | hx
        · rfl
        · exact hg x hx
      rw [List.filter_eq_self.mpr this]
  | cons c rs ih =>
      intro c0 g hg hpw o ho
      have hts : (bucket_agg b c0 g).timestamp = bucket_key b c0.timestamp :=
        foldl_merge_timestamp g (mk_bucket b c0)
      rw [resample_go, hts] at ho
      by_cases hk : bucket_key b c0.timestamp = bucket_key b c.timestamp
      · rw [if_pos hk] at ho
        rw [← bucket_agg_append] at ho
        have hg2 : ∀ x ∈ g ++ [c],
            bucket_key b x.timestamp = bucket_key b c0.timestamp := by
          intro x hx
          rcases List.mem_append.mp hx with hx | hx
          · exact hg x hx
          · rw [List.mem_singleton] at hx
            subst hx
            exact hk.symm
        have hlist : (g ++ [c]) ++ rs = g ++ (c :: rs) := by
          rw [List.append_assoc, List.singleton_append]
        have hpw2 : List.Pairwise (keyP b) (c0 :: ((g ++ [c]) ++ rs)) := by
          rw [hlist]
          exact hpw
        obtain ⟨d, ds, hfil, hagg⟩ := ih c0 (g ++ [c]) hg2 hpw2 o ho
        rw [hlist] at hfil
        exact ⟨d, ds, hfil, hagg⟩
      · rw [if_neg hk] at ho
        have hkc : bucket_key b c0.timestamp < bucket_key b c.timestamp := by
          have hle : keyP b c0 c := (List.pairwise_cons.mp hpw).1 c
            (List.mem_append.mpr (Or.inr (List.mem_cons_self ..)))
          exact lt_of_le_of_ne hle hk
        have hpwtail : List.Pairwise (keyP b) (g ++ (c :: rs)) :=
          (List.pairwise_cons.mp hpw).2
        have hpwcrs : List.Pairwise (keyP b) (c :: rs) :=
          hpwtail.sublist (List.sublist_append_right g (c :: rs))
        have hcler : ∀ x ∈ rs, bucket_key b c.timestamp ≤ bucket_key b x.timestamp :=
          fun x hx => (List.pairwise_cons.mp hpwcrs).1 x hx
        rcases List.mem_cons.mp ho with rfl | ho
        · -- o is the flushed bucket: its group is c0 :: g
          refine ⟨c0, g, ?_, rfl⟩
          have hsplit : c0 :: (g ++ (c :: rs)) = (c0 :: g) ++ (c :: rs) := by
            rw [List.cons_append]
          rw [hsplit, List.filter_append]
          have h1 : ∀ x ∈ c0 :: g,
              (fun x => decide (bucket_key b x.timestamp
                = (bucket_agg b c0 g).timestamp)) x = true := by
            intro x hx
            rw [decide_eq_true_eq, hts]
            rcases List.mem_cons.mp hx with rfl | hx
            · rfl
            · exact hg x hx
          have h2 : ∀ x ∈ c :: rs,
              ¬ (fun x => decide (bucket_key b x.timestamp
                = (bucket_agg b c0 g).timestamp)) x = true := by
            intro x hx
            rw [decide_eq_true_eq, hts]
            rcases List.mem_cons.mp hx with rfl | hx
            · omega
            · have := hcler x hx
              omega
          rw [List.filter_eq_self.mpr h1, List.filter_eq_nil_iff.mpr h2,
            List.append_nil]
        · -- o comes from the later buckets
          have hmk : mk_bucket b c = bucket_agg b c [] := rfl
          rw [hmk] at ho
          obtain ⟨d, ds, hfil, hagg⟩ := ih c [] (by intro x hx; cases hx)
            (by rw [List.nil_append]; exact hpwcrs) o ho
          rw [List.nil_append] at hfil
          refine ⟨d, ds, ?_, hagg⟩
          have hots : bucket_key b c.timestamp ≤ o.timestamp := by
            rcases resample_go_ts b rs (bucket_agg b c []) o ho with h | ⟨x, hx, hts2⟩
            · rw [h]
              exact le_rfl
            · rw [hts2]
              exact hcler x hx
          have hsplit : c0 :: (g ++ (c :: rs)) = (c0 :: g) ++ (c :: rs) := by
            rw [List.cons_append]
          rw [hsplit, List.filter_append]
          have h1 : ∀ x ∈ c0 :: g,
              ¬ (fun x => decide (bucket_key b x.timestamp = o.timestamp)) x = true := by
            intro x hx
            rw [decide_eq_true_eq]
            have hxk : bucket_key b x.timestamp = bucket_key b c0.timestamp := by
              rcases List.mem_cons.mp hx with rfl | hx
              · rfl
              · exact hg x hx
            omega
          rw [List.filter_eq_nil_iff.mpr h1, List.nil_append]
          exact hfil

/-- Ten synthetic 1-minute candles starting on a 5-minute boundary
(timestamps 0, 60, ..., 540; open 100+i, high 102+i, low 99+i,
close 101+i, volume 100). -/
def ten_minute_candles : List Candle :=
  [ { timestamp := 0, open_ := 100, high := 102, low := 99, close := 101, volume := 100 },
    { timestamp := 60, open_ := 101, high := 103, low := 100, close := 102, volume := 100 },
    { timestamp := 120, open_ := 102, high := 104, low := 101, close := 103, volume := 100 },
    { timestamp := 180, open_ := 103, high := 105, low := 102, close := 104, volume := 100 },
    { timestamp := 240, open_ := 104, high := 106, low := 103, close := 105, volume := 100 },
    { timestamp := 300, open_ := 105, high := 107, low := 104, close := 106, volume := 100 },
    { timestamp := 360, open_ := 106, high := 108, low := 105, close := 107, volume := 100 },
    { timestamp := 420, open_ := 107, high := 109, low := 106, close := 108, volume := 100 },
    { timestamp := 480, open_ := 108, high := 110, low := 107, close := 109, volume := 100 },
    { timestamp := 540, open_ := 109, high := 111, low := 108, close := 110, volume := 100 } ]

def five_min_bucket0 : Candle :=
  { timestamp := 0, open_ := 100, high := 106, low := 99, close := 105, volume := 500 }

def five_min_bucket1 : Candle :=
  { timestamp := 300, open_ := 105, high := 111, low := 104, close := 110, volume := 500 }

theorem ten_minute_resample_eval :
    resample_fold 300 ten_minute_candles = [five_min_bucket0, five_min_bucket1] := by
  rw [resample_fold_eq]
  norm_num [resample, resample_go, mk_bucket, merge_candle, bucket_key,
    ten_minute_candles, five_min_bucket0, five_min_bucket1, Int.tmod,
    max_def, min_def]

/-- Claim C6: on a time-ascending series, every bucket produced by
CandleSeries::resample aggregates exactly the candles whose bucket key
equals its timestamp: open of the first, close of the last, max of highs,
min of lows, sum of volumes; in particular the ten synthetic 1-minute
candles above resample into exactly 2 five-minute buckets, the first of
which opens at candle[0].open and closes at candle[4].close, agreeing
with direct construction from 5-minute source data. -/
theorem resample_bucket_aggregation :
    (∀ (b : ℤ), 0 < b → ∀ (cs : List Candle),
      List.Chain' (fun x y => x.timestamp ≤ y.timestamp) cs →
      ∀ o ∈ resample_fold b cs,
        ∃ d ds, cs.filter
            (fun c => decide (bucket_key b c.timestamp = o.timestamp)) = d :: ds ∧
          o.timestamp = bucket_key b d.timestamp ∧
          o.open_ = d.open_ ∧
          o.close = (ds.map (·.close)).getLastD d.close ∧
          o.high = highs_max (d :: ds) ∧
          o.low = lows_min (d :: ds) ∧
          o.volume = ((d :: ds).map (·.volume)).sum) ∧
    (resample_fold 300 ten_minute_candles = [five_min_bucket0, five_min_bucket1] ∧
     five_min_bucket0.open_ = (cat ten_minute_candles 0).open_ ∧
     five_min_bucket0.close = (cat ten_minute_candles 4).close) := by
  constructor
  · intro b hb cs hchain o ho
    rw [resample_fold_eq] at ho
    cases cs with
    | nil => cases ho
    | cons c rest =>
        rw [resample] at ho
        have hmk : mk_bucket b c = bucket_agg b c [] := rfl
        rw [hmk] at ho
        haveI : IsTrans Candle (keyP b) := ⟨fun _ _ _ h1 h2 => le_trans h1 h2⟩
        have hchainK : List.Chain' (keyP b) (c :: rest) :=
          List.Chain'.imp (fun _ _ h => bucket_key_mono hb h) hchain
        have hpw : List.Pairwise (keyP b) (c :: ([] ++ rest)) := by
          rw [List.nil_append]
          exact List.chain'_iff_pairwise.mp hchainK
        obtain ⟨d, ds, hfil, hagg⟩ :=
          resample_go_spec b rest c [] (by intro x hx; cases hx) hpw o ho
        rw [List.nil_append] at hfil
        refine ⟨d, ds, hfil, ?_, ?_, ?_, ?_, ?_, ?_⟩
        · rw [hagg]
          exact foldl_merge_timestamp ds (mk_bucket b d)
        · rw [hagg]
          exact foldl_merge_open ds (mk_bucket b d)
        · rw [hagg]
          exact foldl_merge_close ds (mk_bucket b d)
        · rw [hagg]
          exact foldl_merge_high ds (mk_bucket b d)
        · rw [hagg]
          exact foldl_merge_low ds (mk_bucket b d)
        · rw [hagg]
          unfold bucket_agg
          rw [foldl_merge_volume ds (mk_bucket b d), List.map_cons, List.sum_cons]
          rfl
  · refine ⟨ten_minute_resample_eval, rfl, rfl⟩

/-- Witness for C6: the general bucket theorem applied to the concrete
ten-candle series at its first output bucket. -/
theorem resample_bucket_aggregation_witness :
    ∃ d ds, (ten_minute_candles.filter
        (fun c => decide (bucket_key 300 c.timestamp = five_min_bucket0.timestamp)))
        = d :: ds ∧
      five_min_bucket0.open_ = d.open_ ∧
      five_min_bucket0.volume = ((d :: ds).map (·.volume)).sum := by
  have hchain : List.Chain' (fun x y : Candle => x.timestamp ≤ y.timestamp)
      ten_minute_candles := by
    unfold ten_minute_candles
    refine List.chain'_cons.mpr ⟨by norm_num, ?_⟩
    refine List.chain'_cons.mpr ⟨by norm_num, ?_⟩
    refine List.chain'_cons.mpr ⟨by norm_num, ?_⟩
    refine List.chain'_cons.mpr ⟨by norm_num, ?_⟩
    refine List.chain'_cons.mpr ⟨by norm_num, ?_⟩
    refine List.chain'_cons.mpr ⟨by norm_num, ?_⟩
    refine List.chain'_cons.mpr ⟨by norm_num, ?_⟩
    refine List.chain'_cons.mpr ⟨by norm_num, ?_⟩
    refine List.chain'_cons.mpr ⟨by norm_num, ?_⟩
    exact List.chain'_singleton _
  have hmem : five_min_bucket0 ∈ resample_fold 300 ten_minute_candles := by
    rw [ten_minute_resample_eval]
    exact List.mem_cons_self ..
  obtain ⟨d, ds, hfil, hts, hopen, hclose, hhigh, hlow, hvol⟩ :=
    resample_bucket_aggregation.1 300 (by norm_num) ten_minute_candles hchain
      five_min_bucket0 hmem
  exact ⟨d, ds, hfil, hopen, hvol⟩

/-! ### StdDevProjector (src/core/stddev_projections.rs)

The human-readable label strings of DeviationLevel / SdProjection are not
modelled; every other field is. -/

structure DeviationLevel where
  level : ℚ
  price : ℚ
  has_pda_confluence : Bool
  confluence_pda : Option Pda
  deriving DecidableEq, Repr

instance : Inhabited DeviationLevel := ⟨⟨0, 0, false, none⟩⟩

structure SdProjection where
  direction : Trend
  anchor_high : ℚ
  anchor_low : ℚ
  range_size : ℚ
  levels : List DeviationLevel
  recommended_tp : ℚ
  deriving DecidableEq, Repr

def SdProjection.empty (direction : Trend) : SdProjection :=
  { direction := direction, anchor_high := 0, anchor_low := 0, range_size := 0,
    levels := [], recommended_tp := 0 }

def deviation_levels_const : List ℚ := [-1, -2, -4, -45 / 10]

def pda_confluence_tolerance : ℚ := 15 / 100

/-- Rust Iterator::min_by over enumerate keyed by low (first minimal
element wins): CandleSeries::low_idx_min. -/
def low_idx_min (cs : List Candle) : Option ℕ :=
  (cs.enum.foldl (fun acc e =>
    match acc with
    | none => some e
    | some b => if e.2.low < b.2.low then some e else some b) none).map (·.1)

/-- Rust Iterator::max_by over enumerate keyed by high (last maximal
element wins): CandleSeries::high_idx_max. -/
def high_idx_max (cs : List Candle) : Option ℕ :=
  (cs.enum.foldl (fun acc e =>
    match acc with
    | none => some e
    | some b => if b.2.high ≤ e.2.high then some e else some b) none).map (·.1)

/-- StdDevProjector::find_bullish_manip_leg: (manip_low, manip_high). -/
def find_bullish_manip_leg (cs : List Candle) : ℚ × ℚ :=
  ((cat cs ((low_idx_min cs).getD 0)).low,
   highs_max (cslice cs ((low_idx_min cs).getD 0 - 15) ((low_idx_min cs).getD 0 + 1)))

/-- StdDevProjector::find_bearish_manip_leg: (manip_high, manip_low). -/
def find_bearish_manip_leg (cs : List Candle) : ℚ × ℚ :=
  ((cat cs ((high_idx_max cs).getD 0)).high,
   lows_min (cslice cs ((high_idx_max cs).getD 0 - 15) ((high_idx_max cs).getD 0 + 1)))

/-- StdDevProjector::find_manipulation_leg: (manip_high, manip_low).  On
a short series the source folds over empty-seeded f64 extremes; as with
highs_max/lows_min the degenerate outcome (empty projection) is the same
in this model. -/
def find_manipulation_leg (cs : List Candle) (direction : Trend) : ℚ × ℚ :=
  if cs.length < 10 then (highs_max cs, lows_min cs)
  else
    match direction with
    | Trend.Bullish =>
        ((find_bullish_manip_leg (ctail cs (min 80 cs.length))).2,
         (find_bullish_manip_leg (ctail cs (min 80 cs.length))).1)
    | Trend.Bearish => find_bearish_manip_leg (ctail cs (min 80 cs.length))
    | Trend.Neutral => (highs_max cs, lows_min cs)

/-- The (manip_high, manip_low) pair project resolves from the optional
anchors. -/
def project_leg (cs : List Candle) (direction : Trend)
    (anchor_high anchor_low : Option ℚ) : ℚ × ℚ :=
  match anchor_high, anchor_low with
  | some h, some l => (h, l)
  | _, _ => find_manipulation_leg cs direction

/-- StdDevProjector::pick_recommended_tp. -/
def pick_recommended_tp (levels : List DeviationLevel) (direction : Trend)
    (cs : List Candle) : DeviationLevel :=
  let current := ((cs.getLast?).map (·.close)).getD 0
  let sd_2 := levels.find? fun l => decide (l.level = -2)
  let sd_4 := levels.find? fun l => decide (l.level = -4)
  let sd_45 := levels.find? fun l => decide (l.level = -45 / 10)
  let already_past_2 : Bool :=
    match sd_2 with
    | some l =>
        (match direction with
         | Trend.Bullish => decide (l.price < current)
         | Trend.Bearish => decide (current < l.price)
         | Trend.Neutral => false)
    | none => false
  match (if already_past_2 then sd_45 else none) with
  | some l => l
  | none =>
      match sd_45 with
      | some l => l
      | none =>
          match sd_4 with
          | some l => l
          | none =>
              match sd_2 with
              | some l => l
              | none => levels.headD default

/-- StdDevProjector::project (the projections push cache is a side table
not modelled; the returned SdProjection is). -/
def project (cs : List Candle) (direction : Trend) (pdas : Option (List Pda))
    (anchor_high anchor_low : Option ℚ) : SdProjection :=
  let leg := project_leg cs direction anchor_high anchor_low
  if leg.1 ≤ leg.2 then SdProjection.empty direction
  else
    let range_size := leg.1 - leg.2
    let levels0 := deviation_levels_const.map fun dev =>
      { level := dev,
        price := round2 (match direction with
          | Trend.Bullish => leg.1 + |dev| * range_size
          | Trend.Bearish => leg.2 - |dev| * range_size
          | Trend.Neutral => leg.1),
        has_pda_confluence := false, confluence_pda := none : DeviationLevel }
    let levels := match pdas with
      | some pda_list => levels0.map fun lvl =>
          match pda_list.find? (fun pda =>
            decide (|pda.midpoint - lvl.price| ≤ range_size * pda_confluence_tolerance)) with
          | some pda =>
              { level := lvl.level, price := lvl.price,
                has_pda_confluence := true, confluence_pda := some pda }
          | none => lvl
      | none => levels0
    { direction := direction, anchor_high := leg.1, anchor_low := leg.2,
      range_size := round2 range_size, levels := levels,
      recommended_tp := (pick_recommended_tp levels direction cs).price }

/-! ### PaperTrader (src/trading/paper_trader.rs)

Log strings (entry/exit_time formatting, reason is kept as the char-list
string since Kelly filters on it), the JSON persistence, the trade-record
side table and the last_kelly_result cache are not modelled; timestamps
are an explicit now parameter.  The MAX_RISK_PCT and MAX_LEVERAGE
environment overrides are the risk_pct / max_leverage parameters (their
unset defaults are 1/50 and 5). -/

structure TpTarget where
  level : ℚ
  price : ℚ
  pct : ℚ
  size_btc : ℚ
  hit : Bool
  deriving DecidableEq, Repr

structure PartialExit where
  level : ℚ
  price : ℚ
  size_btc : ℚ
  pnl : ℚ
  time : ℤ
  logged : Bool
  deriving DecidableEq, Repr

structure Position where
  id : ℕ
  direction : Direction
  entry_price : ℚ
  size_usd : ℚ
  size_btc : ℚ
  stop_loss : ℚ
  take_profit : ℚ
  entry_time : ℤ
  reason : List Char
  kelly_fraction : ℚ
  status : PositionStatus
  exit_price : Option ℚ
  exit_time : Option ℤ
  pnl : ℚ
  remaining_size_btc : ℚ
  tp_targets : List TpTarget
  partial_exits : List PartialExit
  deriving DecidableEq, Repr

structure TpLevelInfo where
  price : ℚ
  pda_confluence : Bool
  level : Option ℚ
  deriving DecidableEq, Repr

structure TradeSignal where
  direction : Direction
  entry_price : ℚ
  stop_loss : ℚ
  take_profit : ℚ
  pda_engaged : Option Pda
  cisd_confirmed : Bool
  confidence : ℚ
  session_weight : ℚ
  reason : List Char
  tp_levels : Option (List TpLevelInfo)
  deriving DecidableEq, Repr

structure PaperTrader where
  balance : ℚ
  positions : List Position
  trade_history : List Position
  trade_counter : ℕ
  daily_pnl : ℚ
  fee_rate : ℚ
  slippage_rate : ℚ
  deriving DecidableEq, Repr

/-- Partial TP allocation, conservative (non-CISD). -/
def tp_alloc_conservative : List (ℚ × ℚ) :=
  [(-1, 60 / 100), (-2, 20 / 100), (-4, 10 / 100), (-45 / 10, 10 / 100)]

/-- Partial TP allocation, aggressive (CISD confirmed). -/
def tp_alloc_aggressive : List (ℚ × ℚ) :=
  [(-1, 10 / 100), (-2, 15 / 100), (-4, 30 / 100), (-45 / 10, 45 / 100)]

/-- Rust (x : f64) as i64: truncation toward zero. -/
def qtrunc (x : ℚ) : ℤ := if 0 ≤ x then ⌊x⌋ else -⌊-x⌋

/-- The HashMap<i64, f64> built from tp_levels keyed by (level*10.0) as
i64; a later insert for the same key overwrites an earlier one. -/
def tp_map_get (tp_levels : List TpLevelInfo) (k : ℤ) : Option ℚ :=
  ((tp_levels.filterMap fun l =>
      l.level.map fun lv => (qtrunc (lv * 10), l.price)).reverse.find?
    fun e => decide (e.1 = k)).map (·.2)

/-- TP-target construction of PaperTrader::open_position. -/
def build_tp_targets (signal : TradeSignal) (size_btc : ℚ) : List TpTarget :=
  match signal.tp_levels with
  | none => []
  | some tp_levels =>
      (if signal.cisd_confirmed then tp_alloc_aggressive
       else tp_alloc_conservative).filterMap fun lp =>
        (tp_map_get tp_levels (qtrunc (lp.1 * 10))).map fun price =>
          { level := lp.1, price := price, pct := lp.2,
            size_btc := round8 (size_btc * lp.2), hit := false }

def sl_distance (signal : TradeSignal) : ℚ :=
  |signal.entry_price - signal.stop_loss|

/-- Kelly applied fraction over the trader's history for the scale. -/
def open_kelly_fraction (tr : PaperTrader) (scale : List Char) : ℚ :=
  (calculate (tr.trade_history.map fun p => ⟨p.pnl, p.reason⟩) (some scale)).applied_fraction

/-- KellyCriterion::get_risk_amount dollar risk. -/
def open_risk_amount (tr : PaperTrader) (scale : List Char) : ℚ :=
  round2 (tr.balance * open_kelly_fraction tr scale)

/-- capped_risk of open_position: Kelly risk clipped by the hard per-trade
cap risk_pct * balance. -/
def open_capped_risk (tr : PaperTrader) (scale : List Char) (risk_pct : ℚ) : ℚ :=
  min (open_risk_amount tr scale) (tr.balance * risk_pct)

/-- Pre-leverage position size capped_risk / stop distance. -/
def open_size_btc0 (tr : PaperTrader) (signal : TradeSignal) (scale : List Char)
    (risk_pct : ℚ) : ℚ :=
  open_capped_risk tr scale risk_pct / sl_distance signal

/-- PaperTrader::open_position. -/
def open_position (tr : PaperTrader) (signal : TradeSignal) (scale : List Char)
    (risk_pct max_leverage : ℚ) (now : ℤ) : PaperTrader × Option Position :=
  if sl_distance signal = 0 then (tr, none)
  else
    let size_btc0 := open_size_btc0 tr signal scale risk_pct
    let size_usd0 := size_btc0 * signal.entry_price
    let max_position_usd := tr.balance * max_leverage
    let size_usd := if max_position_usd < size_usd0 then max_position_usd else size_usd0
    let size_btc := if max_position_usd < size_usd0 then
        max_position_usd / signal.entry_price else size_btc0
    let entry_price := match signal.direction with
      | Direction.Long => signal.entry_price * (1 + tr.slippage_rate)
      | Direction.Short => signal.entry_price * (1 - tr.slippage_rate)
    let pos : Position :=
      { id := tr.trade_counter + 1, direction := signal.direction,
        entry_price := entry_price, size_usd := round2 size_usd,
        size_btc := round8 size_btc, stop_loss := signal.stop_loss,
        take_profit := signal.take_profit, entry_time := now,
        reason := signal.reason,
        kelly_fraction := open_kelly_fraction tr scale,
        status := PositionStatus.Open, exit_price := none, exit_time := none,
        pnl := 0, remaining_size_btc := round8 size_btc,
        tp_targets := build_tp_targets signal size_btc, partial_exits := [] }
    ({ balance := tr.balance - (size_usd * tr.fee_rate + size_usd * tr.slippage_rate),
       positions := tr.positions ++ [pos], trade_history := tr.trade_history,
       trade_counter := tr.trade_counter + 1, daily_pnl := tr.daily_pnl,
       fee_rate := tr.fee_rate, slippage_rate := tr.slippage_rate }, some pos)

/-- Stop-loss trigger test of check_positions. -/
def hit_sl (p : Position) (price : ℚ) : Bool :=
  match p.direction with
  | Direction.Long => decide (price ≤ p.stop_loss)
  | Direction.Short => decide (p.stop_loss ≤ price)

/-- Partial TP target trigger test. -/
def tp_target_hit (p : Position) (t : TpTarget) (price : ℚ) : Bool :=
  match p.direction with
  | Direction.Long => decide (t.price ≤ price)
  | Direction.Short => decide (price ≤ t.price)

/-- Single-TP trigger test (empty ladder). -/
def hit_tp_single (p : Position) (price : ℚ) : Bool :=
  match p.direction with
  | Direction.Long => decide (p.take_profit ≤ price)
  | Direction.Short => decide (price ≤ p.take_profit)

/-- A take-profit (partial or single) would trigger at this price. -/
def tp_would_hit (p : Position) (price : ℚ) : Bool :=
  if p.tp_targets.isEmpty then hit_tp_single p price
  else p.tp_targets.any fun t => !t.hit && tp_target_hit p t price

/-- PaperTrader::partial_close on the position (second component: the pnl
added to balance and daily_pnl). -/
def partial_close (fee_rate : ℚ) (p : Position) (target_idx : ℕ)
    (exit_price : ℚ) (now : ℤ) : Position × ℚ :=
  match p.tp_targets.get? target_idx with
  | none => (p, 0)
  | some t =>
      if min t.size_btc p.remaining_size_btc ≤ 0 then (p, 0)
      else
        ({ id := p.id, direction := p.direction, entry_price := p.entry_price,
           size_usd := p.size_usd, size_btc := p.size_btc,
           stop_loss := p.stop_loss, take_profit := p.take_profit,
           entry_time := p.entry_time, reason := p.reason,
           kelly_fraction := p.kelly_fraction, status := p.status,
           exit_price := p.exit_price, exit_time := p.exit_time,
           pnl := round2 (p.pnl + partial_close_pnl fee_rate p t exit_price),
           remaining_size_btc :=
             round8 (p.remaining_size_btc - min t.size_btc p.remaining_size_btc),
           tp_targets := p.tp_targets.set target_idx
             { level := t.level, price := t.price, pct := t.pct,
               size_btc := t.size_btc, hit := true },
           partial_exits := p.partial_exits ++
             [{ level := t.level, price := exit_price,
                size_btc := min t.size_btc p.remaining_size_btc,
                pnl := partial_close_pnl fee_rate p t exit_price,
                time := now, logged := false }] },
         partial_close_pnl fee_rate p t exit_price)
where
  /-- round2(direction pnl on the closed size minus the exit fee). -/
  partial_close_pnl (fee_rate : ℚ) (p : Position) (t : TpTarget)
      (exit_price : ℚ) : ℚ :=
    round2 ((match p.direction with
      | Direction.Long => (exit_price - p.entry_price) *
          min t.size_btc p.remaining_size_btc
      | Direction.Short => (p.entry_price - exit_price) *
          min t.size_btc p.remaining_size_btc) -
      min t.size_btc p.remaining_size_btc * exit_price * fee_rate)

/-- PaperTrader::close_position on the position (second component: the
unrounded pnl added to balance and daily_pnl). -/
def close_position (fee_rate : ℚ) (p : Position) (exit_price : ℚ)
    (status : PositionStatus) (now : ℤ) : Position × ℚ :=
  ({ id := p.id, direction := p.direction, entry_price := p.entry_price,
     size_usd := p.size_usd, size_btc := p.size_btc,
     stop_loss := p.stop_loss, take_profit := p.take_profit,
     entry_time := p.entry_time, reason := p.reason,
     kelly_fraction := p.kelly_fraction, status := status,
     exit_price := some exit_price, exit_time := some now,
     pnl := round2 (p.pnl + close_position_pnl fee_rate p exit_price),
     remaining_size_btc := 0, tp_targets := p.tp_targets,
     partial_exits := p.partial_exits },
   close_position_pnl fee_rate p exit_price)
where
  close_size (p : Position) : ℚ :=
    if 0 < p.remaining_size_btc then p.remaining_size_btc else p.size_btc
  close_position_pnl (fee_rate : ℚ) (p : Position) (exit_price : ℚ) : ℚ :=
    (match p.direction with
      | Direction.Long => (exit_price - p.entry_price) * close_size p
      | Direction.Short => (p.entry_price - exit_price) * close_size p) -
      close_size p * exit_price * fee_rate

/-- PaperTrader::finalize_position. -/
def finalize_position (p : Position) (status : PositionStatus) (now : ℤ) :
    Position :=
  { id := p.id, direction := p.direction, entry_price := p.entry_price,
    size_usd := p.size_usd, size_btc := p.size_btc,
    stop_loss := p.stop_loss, take_profit := p.take_profit,
    entry_time := p.entry_time, reason := p.reason,
    kelly_fraction := p.kelly_fraction, status := status,
    exit_price := (p.partial_exits.getLast?).map (·.price),
    exit_time := some now, pnl := p.pnl,
    remaining_size_btc := p.remaining_size_btc, tp_targets := p.tp_targets,
    partial_exits := p.partial_exits }

/-- The partial-TP scan of check_positions: targets in ladder order, each
unhit triggered target partially closed (returns the updated position,
accumulated balance pnl, and whether any target was hit). -/
def run_tp_step (fee_rate price : ℚ) (now : ℤ) (acc : Position × ℚ × Bool)
    (t_idx : ℕ) : Position × ℚ × Bool :=
  match acc.1.tp_targets.get? t_idx with
  | none => acc
  | some t =>
      if t.hit then acc
      else if tp_target_hit acc.1 t price then
        ((partial_close fee_rate acc.1 t_idx price now).1,
         acc.2.1 + (partial_close fee_rate acc.1 t_idx price now).2, true)
      else acc

def run_tp_targets (fee_rate price : ℚ) (now : ℤ) (p : Position) :
    Position × ℚ × Bool :=
  (List.range p.tp_targets.length).foldl (run_tp_step fee_rate price now)
    (p, 0, false)

/-- Per-position body of the check_positions loop: stop-loss first, then
the partial ladder (full close or finalize once all targets are hit),
else the single TP (returns the updated position, the pnl credited to
balance and daily_pnl, and whether the position closed). -/
def check_one (fee_rate price : ℚ) (now : ℤ) (p : Position) :
    Position × ℚ × Bool :=
  if p.status ≠ PositionStatus.Open then (p, 0, false)
  else if hit_sl p price then
    ((close_position fee_rate p p.stop_loss PositionStatus.ClosedSl now).1,
     (close_position fee_rate p p.stop_loss PositionStatus.ClosedSl now).2, true)
  else if !p.tp_targets.isEmpty then
    if (run_tp_targets fee_rate price now p).2.2 &&
        (run_tp_targets fee_rate price now p).1.tp_targets.all (·.hit) then
      if 0 < (run_tp_targets fee_rate price now p).1.remaining_size_btc then
        ((close_position fee_rate (run_tp_targets fee_rate price now p).1 price
            PositionStatus.ClosedTp now).1,
         (run_tp_targets fee_rate price now p).2.1 +
           (close_position fee_rate (run_tp_targets fee_rate price now p).1 price
             PositionStatus.ClosedTp now).2, true)
      else
        (finalize_position (run_tp_targets fee_rate price now p).1
           PositionStatus.ClosedTp now,
         (run_tp_targets fee_rate price now p).2.1, true)
    else ((run_tp_targets fee_rate price now p).1,
      (run_tp_targets fee_rate price now p).2.1, false)
  else if hit_tp_single p price then
    ((close_position fee_rate p price PositionStatus.ClosedTp now).1,
     (close_position fee_rate p price PositionStatus.ClosedTp now).2, true)
  else (p, 0, false)

/-- PaperTrader::check_positions.  The Rust loop mutates position i, the
balance, daily_pnl and trade_history in iteration order; since each
iteration touches only position i plus the accumulators, it equals the
map of check_one over the positions, with the pnl deltas summed into
balance/daily_pnl and the closed positions appended to trade_history in
order.  Returns the new trader and the closed list. -/
def check_positions (tr : PaperTrader) (price : ℚ) (now : ℤ) :
    PaperTrader × List Position :=
  ({ balance := tr.balance +
       ((tr.positions.map (check_one tr.fee_rate price now)).map fun r => r.2.1).sum,
     positions := (tr.positions.map (check_one tr.fee_rate price now)).map (·.1),
     trade_history := tr.trade_history ++
       ((tr.positions.map (check_one tr.fee_rate price now)).filterMap fun r =>
         if r.2.2 then some r.1 else none),
     trade_counter := tr.trade_counter,
     daily_pnl := tr.daily_pnl +
       ((tr.positions.map (check_one tr.fee_rate price now)).map fun r => r.2.1).sum,
     fee_rate := tr.fee_rate, slippage_rate := tr.slippage_rate },
   ((tr.positions.map (check_one tr.fee_rate price now)).filterMap fun r =>
     if r.2.2 then some r.1 else none))

theorem check_one_not_open {fee price : ℚ} {now : ℤ} {p : Position}
    (h : p.status ≠ PositionStatus.Open) :
    check_one fee price now p = (p, 0, false) := by
  unfold check_one
  rw [if_pos h]

theorem check_one_sl {fee price : ℚ} {now : ℤ} {p : Position}
    (hopen : p.status = PositionStatus.Open) (hsl : hit_sl p price = true) :
    check_one fee price now p =
      ((close_position fee p p.stop_loss PositionStatus.ClosedSl now).1,
       (close_position fee p p.stop_loss PositionStatus.ClosedSl now).2, true) := by
  unfold check_one
  rw [if_neg (show ¬(p.status ≠ PositionStatus.Open) from fun hk => hk hopen)]
  rw [if_pos hsl]

theorem check_positions_positions (tr : PaperTrader) (price : ℚ) (now : ℤ)
    (i : ℕ) :
    (check_positions tr price now).1.positions[i]? =
      (tr.positions[i]?).map fun p => (check_one tr.fee_rate price now p).1 := by
  show ((tr.positions.map (check_one tr.fee_rate price now)).map (·.1))[i]? = _
  rw [List.map_map, List.getElem?_map]
  rfl

/-- Claim C4: within one evaluation of check_positions the stop-loss
check dominates: an open position whose stop and take-profit conditions
both hold at the current price is closed as ClosedSl at the stop price
with its TP ladder and partial-exit log untouched, and a position can
only come out of the evaluation as ClosedTp if its stop condition did NOT
hold at that price. -/
theorem check_positions_sl_priority (tr : PaperTrader) (price : ℚ) (now : ℤ) :
    (∀ (i : ℕ) (p : Position), tr.positions[i]? = some p → p.status = PositionStatus.Open →
      hit_sl p price = true → tp_would_hit p price = true →
      ∃ p' : Position, (check_positions tr price now).1.positions[i]? = some p' ∧
        p'.status = PositionStatus.ClosedSl ∧
        p'.exit_price = some p.stop_loss ∧
        p'.tp_targets = p.tp_targets ∧
        p'.partial_exits = p.partial_exits) ∧
    (∀ (i : ℕ) (p p' : Position), tr.positions[i]? = some p →
      (check_positions tr price now).1.positions[i]? = some p' →
      p.status = PositionStatus.Open → p'.status = PositionStatus.ClosedTp →
      hit_sl p price = false) := by
  constructor
  · intro i p hget hopen hsl _
    refine ⟨(check_one tr.fee_rate price now p).1, ?_, ?_⟩
    · rw [check_positions_positions, hget, Option.map_some']
    · rw [check_one_sl hopen hsl]
      exact ⟨rfl, rfl, rfl, rfl⟩
  · intro i p p' hget hget' hopen hstat
    rw [check_positions_positions, hget, Option.map_some', Option.some.injEq] at hget'
    cases hsl : hit_sl p price with
    | false => rfl
    | true =>
        exfalso
        rw [check_one_sl hopen hsl] at hget'
        rw [← hget'] at hstat
        exact absurd (show PositionStatus.ClosedSl = PositionStatus.ClosedTp from hstat)
          (by decide)

/-- Concrete trader for the C4/C5 witnesses: one open long whose stop and
(single) take-profit both trigger at price 100. -/
def pos_w : Position :=
  { id := 1, direction := Direction.Long, entry_price := 105,
    size_usd := 525 / 10, size_btc := 1 / 2, stop_loss := 100,
    take_profit := 100, entry_time := 0, reason := [],
    kelly_fraction := 1 / 100, status := PositionStatus.Open,
    exit_price := none, exit_time := none, pnl := 0,
    remaining_size_btc := 1 / 2, tp_targets := [], partial_exits := [] }

def trader_w : PaperTrader :=
  { balance := 1000, positions := [pos_w], trade_history := [],
    trade_counter := 1, daily_pnl := 0, fee_rate := 0, slippage_rate := 0 }

def pos_w_closed : Position :=
  { id := 1, direction := Direction.Long, entry_price := 105,
    size_usd := 525 / 10, size_btc := 1 / 2, stop_loss := 100,
    take_profit := 100, entry_time := 0, reason := [],
    kelly_fraction := 1 / 100, status := PositionStatus.ClosedSl,
    exit_price := some 100, exit_time := some 0, pnl := -5 / 2,
    remaining_size_btc := 0, tp_targets := [], partial_exits := [] }

theorem check_one_w_eval :
    (check_one trader_w.fee_rate 100 0 pos_w).1 = pos_w_closed := by
  rw [check_one_sl (p := pos_w) rfl (by norm_num [hit_sl, pos_w])]
  show (close_position trader_w.fee_rate pos_w 100 PositionStatus.ClosedSl 0).1 = _
  unfold close_position pos_w pos_w_closed trader_w
  norm_num [close_position.close_position_pnl, close_position.close_size,
    round2, rround, rust_round, round_eq]

/-- Witness for C4 at the concrete trader. -/
theorem check_positions_sl_priority_witness :
    ∃ p' : Position, (check_positions trader_w 100 0).1.positions[0]? = some p' ∧
      p'.status = PositionStatus.ClosedSl ∧ p'.exit_price = some pos_w.stop_loss := by
  obtain ⟨p', h1, h2, h3, _, _⟩ :=
    (check_positions_sl_priority trader_w 100 0).1 0 pos_w rfl rfl
      (by norm_num [hit_sl, pos_w])
      (by norm_num [tp_would_hit, hit_tp_single, pos_w])
  exact ⟨p', h1, h2, h3⟩

theorem partial_close_spec (fee : ℚ) (p : Position) (t_idx : ℕ) (price : ℚ)
    (now : ℤ) (h0 : 0 ≤ p.remaining_size_btc)
    (hg : on_grid 100000000 p.remaining_size_btc) :
    (partial_close fee p t_idx price now).1.remaining_size_btc ≤
      p.remaining_size_btc ∧
    0 ≤ (partial_close fee p t_idx price now).1.remaining_size_btc ∧
    on_grid 100000000 (partial_close fee p t_idx price now).1.remaining_size_btc ∧
    (partial_close fee p t_idx price now).1.status = p.status ∧
    (partial_close fee p t_idx price now).1.size_btc = p.size_btc := by
  cases htarget : p.tp_targets.get? t_idx with
  | none =>
      have heq : partial_close fee p t_idx price now = (p, 0) := by
        unfold partial_close
        simp only [htarget]
      rw [heq]
      exact ⟨le_rfl, h0, hg, rfl, rfl⟩
  | some t =>
      by_cases hcs : min t.size_btc p.remaining_size_btc ≤ 0
      · have heq : partial_close fee p t_idx price now = (p, 0) := by
          unfold partial_close
          simp only [htarget]
          rw [if_pos hcs]
        rw [heq]
        exact ⟨le_rfl, h0, hg, rfl, rfl⟩
      · have hrem : (partial_close fee p t_idx price now).1.remaining_size_btc =
            round8 (p.remaining_size_btc - min t.size_btc p.remaining_size_btc) := by
          unfold partial_close
          simp only [htarget]
          rw [if_neg hcs]
        have hst : (partial_close fee p t_idx price now).1.status = p.status := by
          unfold partial_close
          simp only [htarget]
          rw [if_neg hcs]
        have hsz : (partial_close fee p t_idx price now).1.size_btc = p.size_btc := by
          unfold partial_close
          simp only [htarget]
          rw [if_neg hcs]
        push_neg at hcs
        have hm1 : min t.size_btc p.remaining_size_btc ≤ p.remaining_size_btc :=
          min_le_right _ _
        have hsub0 : 0 ≤ p.remaining_size_btc - min t.size_btc p.remaining_size_btc := by
          linarith
        have hzero : round8 (0 : ℚ) = 0 :=
          rround_fixed (by norm_num) ⟨0, by norm_num⟩
        have hfix : round8 p.remaining_size_btc = p.remaining_size_btc :=
          rround_fixed (by norm_num) hg
        rw [hrem, hst, hsz]
        refine ⟨?_, ?_, rround_on_grid _ _, rfl, rfl⟩
        · calc round8 (p.remaining_size_btc - min t.size_btc p.remaining_size_btc)
              ≤ round8 p.remaining_size_btc := rround_mono (by norm_num) (by linarith)
            _ = p.remaining_size_btc := hfix
        · calc (0 : ℚ) = round8 0 := hzero.symm
            _ ≤ _ := rround_mono (by norm_num) hsub0

theorem run_tp_targets_spec (fee price : ℚ) (now : ℤ) (p : Position)
    (h0 : 0 ≤ p.remaining_size_btc)
    (hg : on_grid 100000000 p.remaining_size_btc) :
    (run_tp_targets fee price now p).1.remaining_size_btc ≤ p.remaining_size_btc ∧
    0 ≤ (run_tp_targets fee price now p).1.remaining_size_btc ∧
    on_grid 100000000 (run_tp_targets fee price now p).1.remaining_size_btc ∧
    (run_tp_targets fee price now p).1.status = p.status ∧
    (run_tp_targets fee price now p).1.size_btc = p.size_btc := by
  unfold run_tp_targets
  suffices haux : ∀ (idxs : List ℕ) (acc : Position × ℚ × Bool),
      acc.1.remaining_size_btc ≤ p.remaining_size_btc →
      0 ≤ acc.1.remaining_size_btc →
      on_grid 100000000 acc.1.remaining_size_btc →
      acc.1.status = p.status →
      acc.1.size_btc = p.size_btc →
      (idxs.foldl (run_tp_step fee price now) acc).1.remaining_size_btc ≤
        p.remaining_size_btc ∧
      0 ≤ (idxs.foldl (run_tp_step fee price now) acc).1.remaining_size_btc ∧
      on_grid 100000000
        (idxs.foldl (run_tp_step fee price now) acc).1.remaining_size_btc ∧
      (idxs.foldl (run_tp_step fee price now) acc).1.status = p.status ∧
      (idxs.foldl (run_tp_step fee price now) acc).1.size_btc = p.size_btc by
    exact haux (List.range p.tp_targets.length) (p, 0, false) le_rfl h0 hg rfl rfl
  intro idxs
  induction idxs with
  | nil =>
      intro acc h1 h2 h3 h4 h5
      exact ⟨h1, h2, h3, h4, h5⟩
  | cons j rest ih =>
      intro acc h1 h2 h3 h4 h5
      rw [List.foldl_cons]
      have hstep : ∀ q : Position × ℚ × Bool,
          q.1.remaining_size_btc ≤ p.remaining_size_btc →
          0 ≤ q.1.remaining_size_btc →
          on_grid 100000000 q.1.remaining_size_btc →
          q.1.status = p.status → q.1.size_btc = p.size_btc →
          (run_tp_step fee price now q j).1.remaining_size_btc ≤
            p.remaining_size_btc ∧
          0 ≤ (run_tp_step fee price now q j).1.remaining_size_btc ∧
          on_grid 100000000 (run_tp_step fee price now q j).1.remaining_size_btc ∧
          (run_tp_step fee price now q j).1.status = p.status ∧
          (run_tp_step fee price now q j).1.size_btc = p.size_btc := by
        intro q hq1 hq2 hq3 hq4 hq5
        unfold run_tp_step
        cases htarget : q.1.tp_targets.get? j with
        | none =>
            simp only [htarget]
            exact ⟨hq1, hq2, hq3, hq4, hq5⟩
        | some t =>
            simp only [htarget]
            by_cases hhit : t.hit
            · rw [if_pos hhit]
              exact ⟨hq1, hq2, hq3, hq4, hq5⟩
            · rw [if_neg hhit]
              by_cases htrig : tp_target_hit q.1 t price
              · rw [if_pos htrig]
                obtain ⟨k1, k2, k3, k4, k5⟩ :=
                  partial_close_spec fee q.1 j price now hq2 hq3
                exact ⟨le_trans k1 hq1, k2, k3, k4.trans hq4, k5.trans hq5⟩
              · rw [if_neg htrig]
                exact ⟨hq1, hq2, hq3, hq4, hq5⟩
      obtain ⟨m1, m2, m3, m4, m5⟩ := hstep acc h1 h2 h3 h4 h5
      exact ih (run_tp_step fee price now acc j) m1 m2 m3 m4 m5

theorem check_one_spec (fee price : ℚ) (now : ℤ) (p : Position)
    (h0 : 0 ≤ p.remaining_size_btc)
    (hg : on_grid 100000000 p.remaining_size_btc)
    (hz : p.status ≠ PositionStatus.Open → p.remaining_size_btc = 0) :
    (check_one fee price now p).1.remaining_size_btc ≤ p.remaining_size_btc ∧
    0 ≤ (check_one fee price now p).1.remaining_size_btc ∧
    (check_one fee price now p).1.size_btc = p.size_btc ∧
    ((check_one fee price now p).1.status ≠ PositionStatus.Open →
      (check_one fee price now p).1.remaining_size_btc = 0) ∧
    (p.status ≠ PositionStatus.Open → (check_one fee price now p).1 = p) := by
  by_cases hopen : p.status = PositionStatus.Open
  · have hnopen : ¬ (p.status ≠ PositionStatus.Open) := fun hk => hk hopen
    unfold check_one
    rw [if_neg hnopen]
    by_cases hsl : hit_sl p price
    · rw [if_pos hsl]
      exact ⟨h0, le_rfl, rfl, fun _ => rfl, fun hk => absurd hopen hk⟩
    · rw [if_neg hsl]
      by_cases hladder : !p.tp_targets.isEmpty
      · rw [if_pos hladder]
        obtain ⟨k1, k2, k3, k4, k5⟩ := run_tp_targets_spec fee price now p h0 hg
        by_cases hall : (run_tp_targets fee price now p).2.2 &&
            (run_tp_targets fee price now p).1.tp_targets.all (·.hit)
        · rw [if_pos hall]
          by_cases hrem : 0 < (run_tp_targets fee price now p).1.remaining_size_btc
          · rw [if_pos hrem]
            exact ⟨h0, le_rfl, k5, fun _ => rfl, fun hk => absurd hopen hk⟩
          · rw [if_neg hrem]
            have hq0 : (run_tp_targets fee price now p).1.remaining_size_btc = 0 := by
              push_neg at hrem
              linarith
            have hfin : (finalize_position (run_tp_targets fee price now p).1
                PositionStatus.ClosedTp now).remaining_size_btc =
                (run_tp_targets fee price now p).1.remaining_size_btc := rfl
            refine ⟨?_, ?_, k5, ?_, fun hk => absurd hopen hk⟩
            · rw [hfin, hq0]
              exact h0
            · rw [hfin, hq0]
            · intro _
              rw [hfin, hq0]
        · rw [if_neg hall]
          refine ⟨k1, k2, k5, fun hk => ?_, fun hk => absurd hopen hk⟩
          exfalso
          rw [k4, hopen] at hk
          exact hk rfl
      · rw [if_neg hladder]
        by_cases htp : hit_tp_single p price
        · rw [if_pos htp]
          exact ⟨h0, le_rfl, rfl, fun _ => rfl, fun hk => absurd hopen hk⟩
        · rw [if_neg htp]
          refine ⟨le_rfl, h0, rfl, fun hk => ?_, fun _ => rfl⟩
          exact absurd hopen hk
  · rw [check_one_not_open hopen]
    exact ⟨le_rfl, h0, rfl, fun _ => hz hopen, fun _ => rfl⟩

/-- Claim C5: a position's remaining size never exceeds its original
size and never increases.  open_position creates the position Open with
remaining equal to its size on the 1e-8 grid; partial_close only
decreases a well-formed remaining size, keeping it non-negative and on
the grid, without touching status or size; close_position zeroes the
remaining size and sets the requested closed status; and across
check_positions a well-formed position's remaining size is non-increasing
and non-negative, is exactly 0 whenever the resulting status is not Open,
and a position that was already closed is returned completely
unchanged (never re-opened, never resized). -/
theorem position_size_invariants :
    (∀ (tr : PaperTrader) (signal : TradeSignal) (scale : List Char)
        (risk_pct max_leverage : ℚ) (now : ℤ) (tr' : PaperTrader) (pos : Position),
      open_position tr signal scale risk_pct max_leverage now = (tr', some pos) →
      pos.status = PositionStatus.Open ∧
      pos.remaining_size_btc = pos.size_btc ∧
      on_grid 100000000 pos.remaining_size_btc) ∧
    (∀ (fee : ℚ) (p : Position) (t_idx : ℕ) (price : ℚ) (now : ℤ),
      0 ≤ p.remaining_size_btc → on_grid 100000000 p.remaining_size_btc →
      (partial_close fee p t_idx price now).1.remaining_size_btc ≤
        p.remaining_size_btc ∧
      0 ≤ (partial_close fee p t_idx price now).1.remaining_size_btc ∧
      (partial_close fee p t_idx price now).1.status = p.status ∧
      (partial_close fee p t_idx price now).1.size_btc = p.size_btc) ∧
    (∀ (fee : ℚ) (p : Position) (price : ℚ) (status : PositionStatus) (now : ℤ),
      (close_position fee p price status now).1.remaining_size_btc = 0 ∧
      (close_position fee p price status now).1.status = status ∧
      (close_position fee p price status now).1.size_btc = p.size_btc) ∧
    (∀ (tr : PaperTrader) (price : ℚ) (now : ℤ) (i : ℕ) (p p' : Position),
      tr.positions[i]? = some p →
      (check_positions tr price now).1.positions[i]? = some p' →
      0 ≤ p.remaining_size_btc → on_grid 100000000 p.remaining_size_btc →
      (p.status ≠ PositionStatus.Open → p.remaining_size_btc = 0) →
      p'.remaining_size_btc ≤ p.remaining_size_btc ∧
      0 ≤ p'.remaining_size_btc ∧
      p'.size_btc = p.size_btc ∧
      (p'.status ≠ PositionStatus.Open → p'.remaining_size_btc = 0) ∧
      (p.status ≠ PositionStatus.Open → p' = p)) := by
  refine ⟨?_, ?_, ?_, ?_⟩
  · intro tr signal scale risk_pct max_leverage now tr' pos h
    unfold open_position at h
    by_cases hsl : sl_distance signal = 0
    · rw [if_pos hsl] at h
      cases Prod.mk.injEq .. ▸ h |>.2
    · rw [if_neg hsl] at h
      have hpos := (Prod.mk.injEq .. ▸ h).2
      rw [Option.some.injEq] at hpos
      subst hpos
      exact ⟨rfl, rfl, rround_on_grid _ _⟩
  · intro fee p t_idx price now h0 hg
    obtain ⟨k1, k2, _, k4, k5⟩ := partial_close_spec fee p t_idx price now h0 hg
    exact ⟨k1, k2, k4, k5⟩
  · intro fee p price status now
    exact ⟨rfl, rfl, rfl⟩
  · intro tr price now i p p' hget hget' h0 hg hz
    rw [check_positions_positions, hget, Option.map_some', Option.some.injEq] at hget'
    subst hget'
    obtain ⟨k1, k2, k3, k4, k5⟩ := check_one_spec tr.fee_rate price now p h0 hg hz
    exact ⟨k1, k2, k3, k4, k5⟩

theorem check_positions_w_eval :
    (check_positions trader_w 100 0).1.positions[0]? = some pos_w_closed := by
  rw [check_positions_positions]
  rw [show trader_w.positions[0]? = some pos_w from rfl, Option.map_some']
  rw [check_one_w_eval]

/-- Witness for C5: at the concrete trader the stopped-out position ends
with remaining size exactly 0, not above its previous remaining size. -/
theorem position_size_invariants_witness :
    pos_w_closed.remaining_size_btc = 0 ∧
    pos_w_closed.remaining_size_btc ≤ pos_w.remaining_size_btc := by
  have h := position_size_invariants.2.2.2 trader_w 100 0 0 pos_w pos_w_closed
    rfl check_positions_w_eval (by norm_num [pos_w])
    ⟨50000000, by norm_num [pos_w]⟩ (fun hk => absurd rfl hk)
  exact ⟨h.2.2.2.1 (by decide), h.1⟩

/-- Claim C9: invalid numeric input short-circuits to a neutral result:
a signal whose entry equals its stop (zero stop distance) makes
open_position return none with the trader state unchanged, and a
projection request whose resolved manipulation leg is degenerate
(high <= low) yields the empty projection with no deviation levels. -/
theorem invalid_numeric_input_neutral :
    (∀ (tr : PaperTrader) (signal : TradeSignal) (scale : List Char)
        (risk_pct max_leverage : ℚ) (now : ℤ),
      signal.entry_price = signal.stop_loss →
      open_position tr signal scale risk_pct max_leverage now = (tr, none)) ∧
    (∀ (cs : List Candle) (direction : Trend) (pdas : Option (List Pda))
        (anchor_high anchor_low : Option ℚ),
      (project_leg cs direction anchor_high anchor_low).1 ≤
        (project_leg cs direction anchor_high anchor_low).2 →
      project cs direction pdas anchor_high anchor_low =
        SdProjection.empty direction ∧
      (project cs direction pdas anchor_high anchor_low).levels = []) := by
  constructor
  · intro tr signal scale risk_pct max_leverage now h
    unfold open_position
    rw [if_pos (show sl_distance signal = 0 by
      unfold sl_distance
      rw [h, sub_self, abs_zero])]
  · intro cs direction pdas anchor_high anchor_low h
    have hproj : project cs direction pdas anchor_high anchor_low =
        SdProjection.empty direction := by
      unfold project
      rw [if_pos h]
    exact ⟨hproj, by rw [hproj]; rfl⟩

def signal_zero_dist : TradeSignal :=
  { direction := Direction.Long, entry_price := 100, stop_loss := 100,
    take_profit := 110, pda_engaged := none, cisd_confirmed := false,
    confidence := 7 / 10, session_weight := 1, reason := [], tp_levels := none }

/-- Witness for C9 at a concrete zero-distance signal and a concrete
inverted anchor pair. -/
theorem invalid_numeric_input_neutral_witness :
    open_position trader_w signal_zero_dist [] (1 / 50) 5 0 = (trader_w, none) ∧
    project [] Trend.Bullish none (some 100) (some 200) =
      SdProjection.empty Trend.Bullish := by
  constructor
  · exact invalid_numeric_input_neutral.1 trader_w signal_zero_dist [] (1 / 50) 5 0 rfl
  · exact (invalid_numeric_input_neutral.2 [] Trend.Bullish none (some 100) (some 200)
      (by norm_num [project_leg])).1

/-- Claim C10: with the MAX_RISK_PCT override unset (risk_pct = 1/50),
the dollar risk used to size a position is capped at 2 percent of the
balance, so the pre-leverage position size is at most
0.02 * balance / stop distance even when the Kelly fraction is larger. -/
theorem open_position_risk_cap (tr : PaperTrader) (signal : TradeSignal)
    (scale : List Char) (h : sl_distance signal ≠ 0) :
    open_capped_risk tr scale (1 / 50) ≤ tr.balance * (1 / 50) ∧
    open_size_btc0 tr signal scale (1 / 50) ≤
      tr.balance * (1 / 50) / sl_distance signal := by
  refine ⟨min_le_right _ _, ?_⟩
  unfold open_size_btc0
  exact div_le_div_of_nonneg_right (min_le_right _ _) (abs_nonneg _)

def signal_c10 : TradeSignal :=
  { direction := Direction.Long, entry_price := 100, stop_loss := 90,
    take_profit := 120, pda_engaged := none, cisd_confirmed := false,
    confidence := 7 / 10, session_weight := 1, reason := [], tp_levels := none }

/-- Witness for C10 at a concrete trader and signal. -/
theorem open_position_risk_cap_witness :
    open_capped_risk trader_w [] (1 / 50) ≤ trader_w.balance * (1 / 50) ∧
    open_size_btc0 trader_w signal_c10 [] (1 / 50) ≤
      trader_w.balance * (1 / 50) / sl_distance signal_c10 := by
  exact open_position_risk_cap trader_w signal_c10 []
    (by norm_num [sl_distance, signal_c10])

end ICT
